import Mathlib

/-!
Verification of the kaubo-features streaming lexer / Pratt parser framework.

The C++ sources are shallowly embedded: machine integers become `Nat` with
explicit truncation (`% 256` at every `static_cast` to a byte type), fallible
functions return `Except`, and the parser's token-driven mutable state is
threaded explicitly.  Each embedded definition keeps the name of the C++
entity it mirrors (file and line references are given in the doc comments).
-/

set_option maxRecDepth 4000

namespace Utf8

/-- Embeds enum `Utils::Utf8::Error` (src/lexer/src/Utils/Utf8.h lines 11-18). -/
inductive Error where
  | InvalidPosition
  | IncompleteSequence
  | InvalidContinuation
  | OverlongEncoding
  | InvalidCodePoint
  | InvalidLeadingByte
deriving DecidableEq

/-- Embeds `Utils::Utf8::Internal::get_expected_byte_count`
(src/lexer/src/Utils/Utf8.h lines 84-99).  Bytes are `Nat` values below 256;
the masks and match constants are from namespace `Const` of the same file. -/
def get_expected_byte_count (leading_byte : Nat) : Except Error Nat :=
  if leading_byte &&& 0x80 = 0 then .ok 1
  else if leading_byte &&& 0xE0 = 0xC0 then .ok 2
  else if leading_byte &&& 0xF0 = 0xE0 then .ok 3
  else if leading_byte &&& 0xF8 = 0xF0 then .ok 4
  else .error .InvalidLeadingByte

/-- The loop of `Utils::Utf8::Internal::validate_continuation_bytes`
(src/lexer/src/Utils/Utf8.h lines 113-126): index `i` runs from 1 while
`i < expected_length`; the second argument counts the remaining iterations
(`expected_length - i`), so the recursion is structural.  Each byte must
match `10xxxxxx`. -/
def validate_continuation_from (input : List Nat) (start_pos : Nat) :
    Nat → Nat → Except Error Unit
  | _, 0 => .ok ()
  | i, n + 1 =>
    let cont_byte := input.getD (start_pos + i) 0
    if cont_byte &&& 0xC0 = 0x80 then
      validate_continuation_from input start_pos (i + 1) n
    else .error .InvalidContinuation

/-- Embeds `Utils::Utf8::Internal::validate_continuation_bytes`
(src/lexer/src/Utils/Utf8.h lines 113-126): the loop starts at `i = 1` and
performs `expected_length - 1` iterations. -/
def validate_continuation_bytes (start_pos expected_length : Nat) (input : List Nat) :
    Except Error Unit :=
  validate_continuation_from input start_pos 1 (expected_length - 1)

/-- Embeds `Utils::Utf8::Internal::compute_codepoint`
(src/lexer/src/Utils/Utf8.h lines 141-179).  The impossible `default` branch
(guarded by `assert(false)` in the source) returns 0. -/
def compute_codepoint (leading_byte start_pos expected_length : Nat) (input : List Nat) : Nat :=
  match expected_length with
  | 1 => leading_byte
  | 2 =>
    let byte2 := input.getD (start_pos + 1) 0
    ((leading_byte &&& 0x1F) <<< 6) ||| (byte2 &&& 0x3F)
  | 3 =>
    let byte2 := input.getD (start_pos + 1) 0
    let byte3 := input.getD (start_pos + 2) 0
    ((leading_byte &&& 0x0F) <<< 12) ||| ((byte2 &&& 0x3F) <<< 6) ||| (byte3 &&& 0x3F)
  | 4 =>
    let byte2 := input.getD (start_pos + 1) 0
    let byte3 := input.getD (start_pos + 2) 0
    let byte4 := input.getD (start_pos + 3) 0
    ((leading_byte &&& 0x07) <<< 18) ||| ((byte2 &&& 0x3F) <<< 12) |||
      ((byte3 &&& 0x3F) <<< 6) ||| (byte4 &&& 0x3F)
  | _ => 0

/-- Embeds `Utils::Utf8::Internal::is_overlong_encoding`
(src/lexer/src/Utils/Utf8.h lines 193-214).  The impossible `default`
branch returns true, as in the source. -/
def is_overlong_encoding (codepoint byte_count : Nat) : Bool :=
  match byte_count with
  | 1 => decide (codepoint > 0x7F)
  | 2 => decide (codepoint < 0x80)
  | 3 => decide (codepoint < 0x800)
  | 4 => decide (codepoint < 0x10000)
  | _ => true

/-- Embeds `Utils::Utf8::get_utf8_codepoint` (src/lexer/src/Utils/Utf8.h
lines 259-317): position check, leading-byte classification, completeness
check, continuation validation, codepoint assembly, overlong check, range
check.  There is no surrogate check in the source. -/
def get_utf8_codepoint (input : List Nat) (pos : Nat) : Except Error (Nat × Nat) :=
  if pos ≥ input.length then .error .InvalidPosition
  else
    let leading_byte := input.getD pos 0
    match get_expected_byte_count leading_byte with
    | .error e => .error e
    | .ok expected_length =>
      if pos + expected_length > input.length then .error .IncompleteSequence
      else
        match validate_continuation_bytes pos expected_length input with
        | .error e => .error e
        | .ok _ =>
          let codepoint := compute_codepoint leading_byte pos expected_length input
          if is_overlong_encoding codepoint expected_length then .error .OverlongEncoding
          else if codepoint > 0x10FFFF then .error .InvalidCodePoint
          else .ok (codepoint, expected_length)

/-- Embeds `Utils::Utf8::to_utf8` (src/lexer/src/Utils/Utf8.h lines 319-375).
Every `static_cast<uint8_t>` of the source is `% 256`, and each emitted
`char` is reduced `% 256` as well (the value a later `static_cast<uint8_t>`
recovers from the stored `char`). -/
def to_utf8 (codepoint : Nat) : List Nat :=
  if codepoint > 0x10FFFF then []
  else if codepoint ≤ 0x7F then
    [codepoint % 256]
  else if codepoint ≤ 0x7FF then
    [(0xC0 ||| (((codepoint >>> 6) % 256) &&& 0x1F)) % 256,
     (0x80 ||| ((codepoint % 256) &&& 0x3F)) % 256]
  else if codepoint < 0x10000 then
    [(0xE0 ||| (((codepoint >>> 12) % 256) &&& 0x0F)) % 256,
     (0x80 ||| (((codepoint >>> 6) % 256) &&& 0x3F)) % 256,
     (0x80 ||| ((codepoint % 256) &&& 0x3F)) % 256]
  else
    [(0xF0 ||| (((codepoint >>> 18) % 256) &&& 0x07)) % 256,
     (0x80 ||| (((codepoint >>> 12) % 256) &&& 0x3F)) % 256,
     (0x80 ||| (((codepoint >>> 6) % 256) &&& 0x3F)) % 256,
     (0x80 ||| ((codepoint % 256) &&& 0x3F)) % 256]

/-- Embeds `Utils::Utf8::is_digit` (src/lexer/src/Utils/Utf8.h lines 237-239). -/
def is_digit (codepoint : Nat) : Bool :=
  decide (0x30 ≤ codepoint) && decide (codepoint ≤ 0x39)

/-- Embeds `Utils::Utf8::is_identifier_start` (src/lexer/src/Utils/Utf8.h
lines 223-229): ASCII lower case, upper case, or underscore. -/
def is_identifier_start (codepoint : Nat) : Bool :=
  (decide (0x61 ≤ codepoint) && decide (codepoint ≤ 0x7A)) ||
  (decide (0x41 ≤ codepoint) && decide (codepoint ≤ 0x5A)) ||
  decide (codepoint = 0x5F)

/-- Embeds `Utils::Utf8::is_identifier_part` (src/lexer/src/Utils/Utf8.h
lines 231-235); the source tests `is_identifier_start` twice, which is kept. -/
def is_identifier_part (codepoint : Nat) : Bool :=
  is_identifier_start codepoint ||
  (decide (0x30 ≤ codepoint) && decide (codepoint ≤ 0x39)) ||
  is_identifier_start codepoint

end Utf8

namespace Utf8

/-! Arithmetic facts about the byte-level masks, used to settle the
codec round-trip claims. -/

theorem and31 (x : Nat) : x &&& 31 = x % 32 := by
  have h := Nat.and_pow_two_sub_one_eq_mod x 5
  norm_num at h
  exact h

theorem and63 (x : Nat) : x &&& 63 = x % 64 := by
  have h := Nat.and_pow_two_sub_one_eq_mod x 6
  norm_num at h
  exact h

theorem and15 (x : Nat) : x &&& 15 = x % 16 := by
  have h := Nat.and_pow_two_sub_one_eq_mod x 4
  norm_num at h
  exact h

theorem and7 (x : Nat) : x &&& 7 = x % 8 := by
  have h := Nat.and_pow_two_sub_one_eq_mod x 3
  norm_num at h
  exact h

theorem or_eq_add_8 (a b : Nat) (hb : b < 8) : (8 * a) ||| b = 8 * a + b := by
  have hb2 : b < 2 ^ 3 := by norm_num; omega
  have h := Nat.mul_add_lt_is_or hb2 a
  norm_num at h
  exact h.symm

theorem or_eq_add_16 (a b : Nat) (hb : b < 16) : (16 * a) ||| b = 16 * a + b := by
  have hb2 : b < 2 ^ 4 := by norm_num; omega
  have h := Nat.mul_add_lt_is_or hb2 a
  norm_num at h
  exact h.symm

theorem or_eq_add_64 (a b : Nat) (hb : b < 64) : (64 * a) ||| b = 64 * a + b := by
  have hb2 : b < 2 ^ 6 := by norm_num; omega
  have h := Nat.mul_add_lt_is_or hb2 a
  norm_num at h
  exact h.symm

theorem or_eq_add_4096 (a b : Nat) (hb : b < 4096) : (4096 * a) ||| b = 4096 * a + b := by
  have hb2 : b < 2 ^ 12 := by norm_num; omega
  have h := Nat.mul_add_lt_is_or hb2 a
  norm_num at h
  exact h.symm

theorem or_eq_add_262144 (a b : Nat) (hb : b < 262144) :
    (262144 * a) ||| b = 262144 * a + b := by
  have hb2 : b < 2 ^ 18 := by norm_num; omega
  have h := Nat.mul_add_lt_is_or hb2 a
  norm_num at h
  exact h.symm

theorem or128 (y : Nat) (hy : y < 64) : 128 ||| y = 128 + y := by
  have h := or_eq_add_64 2 y hy
  norm_num at h
  exact h

theorem or192 (y : Nat) (hy : y < 32) : 192 ||| y = 192 + y := by
  have h := or_eq_add_64 3 y (by omega)
  norm_num at h
  exact h

theorem or224 (y : Nat) (hy : y < 16) : 224 ||| y = 224 + y := by
  have h := or_eq_add_16 14 y hy
  norm_num at h
  exact h

theorem or240 (y : Nat) (hy : y < 8) : 240 ||| y = 240 + y := by
  have h := or_eq_add_8 30 y hy
  norm_num at h
  exact h

theorem shl6_eq (x : Nat) : x <<< 6 = 64 * x := by
  rw [Nat.shiftLeft_eq]
  norm_num [Nat.mul_comm]

theorem shl12_eq (x : Nat) : x <<< 12 = 4096 * x := by
  rw [Nat.shiftLeft_eq]
  norm_num [Nat.mul_comm]

theorem shl18_eq (x : Nat) : x <<< 18 = 262144 * x := by
  rw [Nat.shiftLeft_eq]
  norm_num [Nat.mul_comm]

theorem shr6_eq (x : Nat) : x >>> 6 = x / 64 := by
  rw [Nat.shiftRight_eq_div_pow]

theorem shr12_eq (x : Nat) : x >>> 12 = x / 4096 := by
  rw [Nat.shiftRight_eq_div_pow]

theorem shr18_eq (x : Nat) : x >>> 18 = x / 262144 := by
  rw [Nat.shiftRight_eq_div_pow]

theorem assemble2 (x y : Nat) (hy : y < 64) : (x <<< 6) ||| y = 64 * x + y := by
  rw [shl6_eq, or_eq_add_64 x y hy]

theorem assemble3 (x y z : Nat) (hy : y < 64) (hz : z < 64) :
    ((x <<< 12) ||| (y <<< 6)) ||| z = 4096 * x + 64 * y + z := by
  have s1 : (x <<< 12) ||| (y <<< 6) = 4096 * x + 64 * y := by
    rw [shl12_eq, shl6_eq, or_eq_add_4096 x (64 * y) (by omega)]
  rw [s1, show 4096 * x + 64 * y = 64 * (64 * x + y) by ring,
    or_eq_add_64 _ z hz]

theorem assemble4 (w x y z : Nat) (hx : x < 64) (hy : y < 64) (hz : z < 64) :
    (((w <<< 18) ||| (x <<< 12)) ||| (y <<< 6)) ||| z =
      262144 * w + 4096 * x + 64 * y + z := by
  have s1 : (w <<< 18) ||| (x <<< 12) = 262144 * w + 4096 * x := by
    rw [shl18_eq, shl12_eq, or_eq_add_262144 w (4096 * x) (by omega)]
  have s2 : ((w <<< 18) ||| (x <<< 12)) ||| (y <<< 6) =
      262144 * w + 4096 * x + 64 * y := by
    rw [s1, shl6_eq, show 262144 * w + 4096 * x = 4096 * (64 * w + x) by ring,
      or_eq_add_4096 _ (64 * y) (by omega)]
  rw [s2, show 262144 * w + 4096 * x + 64 * y = 64 * (4096 * w + 64 * x + y) by ring,
    or_eq_add_64 _ z hz]

/-! Enumerated byte facts: leading-byte classification and data-bit recovery. -/

instance {α β : Type} [DecidableEq α] [DecidableEq β] : DecidableEq (Except α β) :=
  fun a b =>
  match a, b with
  | .error x, .error y =>
    if h : x = y then isTrue (by rw [h]) else isFalse (by intro hc; cases hc; exact h rfl)
  | .ok x, .ok y =>
    if h : x = y then isTrue (by rw [h]) else isFalse (by intro hc; cases hc; exact h rfl)
  | .error x, .ok y => isFalse (by intro hc; cases hc)
  | .ok x, .error y => isFalse (by intro hc; cases hc)

theorem gebc_one : ∀ b < 128, get_expected_byte_count b = .ok 1 := by decide

theorem gebc_two : ∀ b < 32, get_expected_byte_count (192 + b) = .ok 2 := by decide

theorem gebc_three : ∀ b < 16, get_expected_byte_count (224 + b) = .ok 3 := by decide

theorem gebc_four : ∀ b < 8, get_expected_byte_count (240 + b) = .ok 4 := by decide

theorem mask2_data : ∀ b < 32, (192 + b) &&& 0x1F = b := by decide

theorem mask3_data : ∀ b < 16, (224 + b) &&& 0x0F = b := by decide

theorem mask4_data : ∀ b < 8, (240 + b) &&& 0x07 = b := by decide

theorem cont_mark : ∀ b < 64, (128 + b) &&& 0xC0 = 128 := by decide

theorem cont_data : ∀ b < 64, (128 + b) &&& 0x3F = b := by decide

end Utf8

namespace Utf8

/-- Shape of `to_utf8` on the two-byte range. -/
theorem to_utf8_eq_two (cp : Nat) (h1 : 0x80 ≤ cp) (h2 : cp ≤ 0x7FF) :
    to_utf8 cp = [192 + cp / 64, 128 + cp % 64] := by
  unfold to_utf8
  rw [if_neg (by omega), if_neg (by omega), if_pos (by omega)]
  rw [shr6_eq, Nat.mod_eq_of_lt (show cp / 64 < 256 by omega)]
  rw [and31, Nat.mod_eq_of_lt (show cp / 64 < 32 by omega)]
  rw [or192 _ (by omega), Nat.mod_eq_of_lt (show 192 + cp / 64 < 256 by omega)]
  rw [and63, Nat.mod_mod_of_dvd cp (by norm_num)]
  rw [or128 _ (by omega), Nat.mod_eq_of_lt (show 128 + cp % 64 < 256 by omega)]

/-- Shape of `to_utf8` on the three-byte range. -/
theorem to_utf8_eq_three (cp : Nat) (h1 : 0x800 ≤ cp) (h2 : cp ≤ 0xFFFF) :
    to_utf8 cp = [224 + cp / 4096, 128 + cp / 64 % 64, 128 + cp % 64] := by
  unfold to_utf8
  rw [if_neg (by omega), if_neg (by omega), if_neg (by omega), if_pos (by omega)]
  rw [shr12_eq, Nat.mod_eq_of_lt (show cp / 4096 < 256 by omega)]
  rw [and15, Nat.mod_eq_of_lt (show cp / 4096 < 16 by omega)]
  rw [or224 _ (by omega), Nat.mod_eq_of_lt (show 224 + cp / 4096 < 256 by omega)]
  rw [shr6_eq, and63, Nat.mod_mod_of_dvd (cp / 64) (by norm_num)]
  rw [or128 (cp / 64 % 64) (by omega),
    Nat.mod_eq_of_lt (show 128 + cp / 64 % 64 < 256 by omega)]
  rw [and63, Nat.mod_mod_of_dvd cp (by norm_num)]
  rw [or128 (cp % 64) (by omega), Nat.mod_eq_of_lt (show 128 + cp % 64 < 256 by omega)]

/-- Shape of `to_utf8` on the four-byte range. -/
theorem to_utf8_eq_four (cp : Nat) (h1 : 0x10000 ≤ cp) (h2 : cp ≤ 0x10FFFF) :
    to_utf8 cp =
      [240 + cp / 262144, 128 + cp / 4096 % 64, 128 + cp / 64 % 64, 128 + cp % 64] := by
  unfold to_utf8
  rw [if_neg (by omega), if_neg (by omega), if_neg (by omega), if_neg (by omega)]
  rw [shr18_eq, Nat.mod_eq_of_lt (show cp / 262144 < 256 by omega)]
  rw [and7, Nat.mod_eq_of_lt (show cp / 262144 < 8 by omega)]
  rw [or240 _ (by omega), Nat.mod_eq_of_lt (show 240 + cp / 262144 < 256 by omega)]
  rw [shr12_eq, and63, Nat.mod_mod_of_dvd (cp / 4096) (by norm_num)]
  rw [or128 (cp / 4096 % 64) (by omega),
    Nat.mod_eq_of_lt (show 128 + cp / 4096 % 64 < 256 by omega)]
  rw [shr6_eq, and63, Nat.mod_mod_of_dvd (cp / 64) (by norm_num)]
  rw [or128 (cp / 64 % 64) (by omega),
    Nat.mod_eq_of_lt (show 128 + cp / 64 % 64 < 256 by omega)]
  rw [and63, Nat.mod_mod_of_dvd cp (by norm_num)]
  rw [or128 (cp % 64) (by omega), Nat.mod_eq_of_lt (show 128 + cp % 64 < 256 by omega)]

/-- Decoding a well-formed two-byte sequence recovers the data bits. -/
theorem decode_two (x y : Nat) (hx : x < 32) (hy : y < 64) (hov : 128 ≤ 64 * x + y) :
    get_utf8_codepoint [192 + x, 128 + y] 0 = .ok (64 * x + y, 2) := by
  have e2 : validate_continuation_bytes 0 2 [192 + x, 128 + y] = .ok () := by
    unfold validate_continuation_bytes
    simp only [validate_continuation_from, List.getD_cons_succ, List.getD_cons_zero,
      cont_mark y hy, if_true]
  have e3 : compute_codepoint (192 + x) 0 2 [192 + x, 128 + y] = 64 * x + y := by
    unfold compute_codepoint
    simp only [List.getD_cons_succ, List.getD_cons_zero]
    rw [mask2_data x hx, cont_data y hy, assemble2 x y hy]
  unfold get_utf8_codepoint
  rw [if_neg (by simp)]
  simp only [List.getD_cons_zero, gebc_two x hx, e2, e3]
  rw [if_neg (by norm_num)]
  rw [if_neg (by simp only [is_overlong_encoding]; simp; omega)]
  rw [if_neg (by omega)]

end Utf8

namespace Utf8

/-- Decoding a well-formed three-byte sequence recovers the data bits. -/
theorem decode_three (x y z : Nat) (hx : x < 16) (hy : y < 64) (hz : z < 64)
    (hov : 2048 ≤ 4096 * x + 64 * y + z) :
    get_utf8_codepoint [224 + x, 128 + y, 128 + z] 0 = .ok (4096 * x + 64 * y + z, 3) := by
  have e2 : validate_continuation_bytes 0 3 [224 + x, 128 + y, 128 + z] = .ok () := by
    unfold validate_continuation_bytes
    simp only [validate_continuation_from, List.getD_cons_succ, List.getD_cons_zero,
      cont_mark y hy, cont_mark z hz, if_true]
  have e3 : compute_codepoint (224 + x) 0 3 [224 + x, 128 + y, 128 + z] =
      4096 * x + 64 * y + z := by
    unfold compute_codepoint
    simp only [List.getD_cons_succ, List.getD_cons_zero]
    rw [mask3_data x hx, cont_data y hy, cont_data z hz, assemble3 x y z hy hz]
  unfold get_utf8_codepoint
  rw [if_neg (by simp)]
  simp only [List.getD_cons_zero, gebc_three x hx, e2, e3]
  rw [if_neg (by norm_num)]
  rw [if_neg (by simp only [is_overlong_encoding]; simp; omega)]
  rw [if_neg (by omega)]

/-- Decoding a well-formed four-byte sequence recovers the data bits. -/
theorem decode_four (w x y z : Nat) (hw : w < 8) (hx : x < 64) (hy : y < 64) (hz : z < 64)
    (hov : 65536 ≤ 262144 * w + 4096 * x + 64 * y + z)
    (hmax : 262144 * w + 4096 * x + 64 * y + z ≤ 0x10FFFF) :
    get_utf8_codepoint [240 + w, 128 + x, 128 + y, 128 + z] 0 =
      .ok (262144 * w + 4096 * x + 64 * y + z, 4) := by
  have e2 : validate_continuation_bytes 0 4 [240 + w, 128 + x, 128 + y, 128 + z] = .ok () := by
    unfold validate_continuation_bytes
    simp only [validate_continuation_from, List.getD_cons_succ, List.getD_cons_zero,
      cont_mark x hx, cont_mark y hy, cont_mark z hz, if_true]
  have e3 : compute_codepoint (240 + w) 0 4 [240 + w, 128 + x, 128 + y, 128 + z] =
      262144 * w + 4096 * x + 64 * y + z := by
    unfold compute_codepoint
    simp only [List.getD_cons_succ, List.getD_cons_zero]
    rw [mask4_data w hw, cont_data x hx, cont_data y hy, cont_data z hz,
      assemble4 w x y z hx hy hz]
  unfold get_utf8_codepoint
  rw [if_neg (by simp)]
  simp only [List.getD_cons_zero, gebc_four w hw, e2, e3]
  rw [if_neg (by norm_num)]
  rw [if_neg (by simp only [is_overlong_encoding]; simp; omega)]
  rw [if_neg (by omega)]

/-- One-byte round trip, settled by enumeration. -/
theorem roundtrip_one : ∀ cp ≤ 0x7F, get_utf8_codepoint (to_utf8 cp) 0 = .ok (cp, 1) := by
  decide

/-- Two-byte round trip. -/
theorem roundtrip_two (cp : Nat) (h1 : 0x80 ≤ cp) (h2 : cp ≤ 0x7FF) :
    get_utf8_codepoint (to_utf8 cp) 0 = .ok (cp, 2) := by
  rw [to_utf8_eq_two cp h1 h2]
  have h := decode_two (cp / 64) (cp % 64) (by omega) (by omega) (by omega)
  rw [h]
  congr 1
  rw [Prod.mk.injEq]
  omega

/-- Three-byte round trip (surrogates included: the decoder has no surrogate check). -/
theorem roundtrip_three (cp : Nat) (h1 : 0x800 ≤ cp) (h2 : cp ≤ 0xFFFF) :
    get_utf8_codepoint (to_utf8 cp) 0 = .ok (cp, 3) := by
  rw [to_utf8_eq_three cp h1 h2]
  have h := decode_three (cp / 4096) (cp / 64 % 64) (cp % 64) (by omega) (by omega)
    (by omega) (by omega)
  rw [h]
  congr 1
  rw [Prod.mk.injEq]
  omega

/-- Four-byte round trip. -/
theorem roundtrip_four (cp : Nat) (h1 : 0x10000 ≤ cp) (h2 : cp ≤ 0x10FFFF) :
    get_utf8_codepoint (to_utf8 cp) 0 = .ok (cp, 4) := by
  rw [to_utf8_eq_four cp h1 h2]
  have h := decode_four (cp / 262144) (cp / 4096 % 64) (cp / 64 % 64) (cp % 64)
    (by omega) (by omega) (by omega) (by omega) (by omega) (by omega)
  rw [h]
  congr 1
  rw [Prod.mk.injEq]
  omega

end Utf8

namespace Utf8

/-- C8: the UTF-8 codec round-trips.  For every codepoint `cp ≤ 0x10FFFF`
outside the surrogate range U+D800..U+DFFF, decoding the encoding gives the
codepoint back: `get_utf8_codepoint (to_utf8 cp) 0 = .ok (cp, len)` where
`len` is the byte length of `to_utf8 cp`. -/
theorem C8_utf8_roundtrip (cp : Nat) (h1 : cp ≤ 0x10FFFF)
    (_h2 : ¬(0xD800 ≤ cp ∧ cp ≤ 0xDFFF)) :
    get_utf8_codepoint (to_utf8 cp) 0 = .ok (cp, (to_utf8 cp).length) := by
  rcases Nat.lt_or_ge cp 0x80 with hlt | hge
  · have hlen : (to_utf8 cp).length = 1 := by
      unfold to_utf8
      rw [if_neg (by omega), if_pos (by omega)]
      rfl
    rw [hlen]
    exact roundtrip_one cp (by omega)
  · rcases Nat.lt_or_ge cp 0x800 with hlt2 | hge2
    · have hlen : (to_utf8 cp).length = 2 := by
        rw [to_utf8_eq_two cp (by omega) (by omega)]
        rfl
      rw [hlen]
      exact roundtrip_two cp (by omega) (by omega)
    · rcases Nat.lt_or_ge cp 0x10000 with hlt3 | hge3
      · have hlen : (to_utf8 cp).length = 3 := by
          rw [to_utf8_eq_three cp (by omega) (by omega)]
          rfl
        rw [hlen]
        exact roundtrip_three cp (by omega) (by omega)
      · have hlen : (to_utf8 cp).length = 4 := by
          rw [to_utf8_eq_four cp (by omega) (by omega)]
          rfl
        rw [hlen]
        exact roundtrip_four cp (by omega) (by omega)

/-- Witness for C8 at the concrete codepoint U+4F60. -/
theorem C8_utf8_roundtrip_witness :
    get_utf8_codepoint (to_utf8 0x4F60) 0 = .ok (0x4F60, (to_utf8 0x4F60).length) :=
  C8_utf8_roundtrip 0x4F60 (by norm_num) (by omega)

/-- C10: the decoder accepts UTF-16 surrogate codepoints.  For every `cp` in
U+D800..U+DFFF, the three-byte sequence carrying the bit pattern of `cp`
(0xED A0 80 for U+D800) decodes to `.ok (cp, 3)`: surrogates pass the
overlong check and the range check and are never rejected. -/
theorem C10_surrogates_accepted (cp : Nat) (h1 : 0xD800 ≤ cp) (h2 : cp ≤ 0xDFFF) :
    get_utf8_codepoint [0xED, 0x80 ||| ((cp >>> 6) &&& 0x3F), 0x80 ||| (cp &&& 0x3F)] 0 =
      .ok (cp, 3) := by
  have e1 : (0x80 : Nat) ||| ((cp >>> 6) &&& 0x3F) = 128 + cp / 64 % 64 := by
    rw [shr6_eq, and63, or128 _ (by omega)]
  have e2 : (0x80 : Nat) ||| (cp &&& 0x3F) = 128 + cp % 64 := by
    rw [and63, or128 _ (by omega)]
  rw [e1, e2, show (0xED : Nat) = 224 + cp / 4096 by omega]
  have h := decode_three (cp / 4096) (cp / 64 % 64) (cp % 64) (by omega) (by omega)
    (by omega) (by omega)
  rw [h]
  congr 1
  rw [Prod.mk.injEq]
  omega

/-- Witness for C10 at the concrete surrogate U+D800 (byte sequence ED A0 80). -/
theorem C10_surrogates_accepted_witness :
    get_utf8_codepoint [0xED, 0x80 ||| ((0xD800 >>> 6) &&& 0x3F), 0x80 ||| (0xD800 &&& 0x3F)] 0 =
      .ok (0xD800, 3) :=
  C10_surrogates_accepted 0xD800 (by norm_num) (by norm_num)

end Utf8

namespace RingBuffer

/-- State of `Utils::RingBuffer` (src/lexer/src/Utils/RingBuffer.h lines
147-166): capacity, backing vector, head, tail, size, closed flag.  The
mutex and condition variables guard these fields but do not add state. -/
structure State where
  capacity : Nat
  buffer : List Nat
  head : Nat
  tail : Nat
  size : Nat
  closed : Bool
deriving DecidableEq

/-- The constructor `RingBuffer(size_t capacity)` (lines 14-15):
`std::vector<char>(capacity)` value-initializes the storage to zero bytes. -/
def State.init (capacity : Nat) : State :=
  { capacity := capacity, buffer := List.replicate capacity 0,
    head := 0, tail := 0, size := 0, closed := false }

/-- The state update of the successful path of `RingBuffer::push` (lines
28-44): write at `m_tail`, advance `m_tail` modulo the capacity, increment
`m_size`.  Blocking while full and the closed-flag check are concurrency
behaviour outside this sequential state model. -/
def push (s : State) (item : Nat) : State :=
  { s with buffer := s.buffer.set s.tail item,
           tail := (s.tail + 1) % s.capacity,
           size := s.size + 1 }

/-- The state update of the successful path of `RingBuffer::pop` (lines
47-66): read at `m_head`, advance `m_head` modulo the capacity, decrement
`m_size`. -/
def pop (s : State) : Nat × State :=
  (s.buffer.getD s.head 0,
   { s with head := (s.head + 1) % s.capacity, size := s.size - 1 })

/-- Embeds `RingBuffer::try_peek(size_t k)` (src/lexer/src/Utils/RingBuffer.h
lines 96-104).  The source checks only emptiness and then returns
`m_buffer[m_head + k]`: there is no `k < size` check and no wrap-around
(no modulo by the capacity).  When `m_head + k` is past the end of the
vector the C++ read is out of bounds (undefined behaviour); the model
returns `none` for that index. -/
def try_peek (s : State) (k : Nat) : Option Nat :=
  if s.size = 0 then none
  else s.buffer.get? (s.head + k)

/-- C7: the claim says `try_peek k` returns the (k+1)-th oldest stored byte
(with wrap-around) when `k < size` and `none` when `k ≥ size`.  The code
violates both halves.  First conjunct: capacity 4 after one `push 97`
(head 0, size 1), `try_peek 2` returns the stale zero-initialized byte
`some 0` instead of `none` although `2 ≥ size`.  Second conjunct: capacity 2
after `push 97; push 98; pop; push 99` (head 1, size 2, stored bytes 98 then
99 with 99 at wrapped index 0), `try_peek 1` should return the second-oldest
byte `some 99` but the code reads index `head + k = 2`, past the end of the
two-element vector — an out-of-bounds (undefined) read, `none` in the model. -/
theorem C7_try_peek_code_bug :
    try_peek (push (State.init 4) 97) 2 = some 0 ∧
    try_peek (push (pop (push (push (State.init 2) 97) 98)).2 99) 1 = none := by
  constructor
  · rfl
  · rfl

end RingBuffer

namespace Lexer

/-- Modelled from the spec: the per-machine class `StateMachine<TokenType>`
is declared in `Lexer/Core/Proto.h`, which is missing from the sources (only
its callers — `StateMachineManager`, the machine factories — survive).
Spec section 4.3 describes it: states flagged accepting or not, ordered
transitions `(from, to, predicate : Byte → bool)`, a tracked current state,
and a token-type tag.  Token types are the numeric (uint8) values of the
per-front-end enums, compared as numbers ("lower value wins"). -/
structure StateMachine where
  token_type : Nat
  accepting : List Bool
  transitions : List (Nat × Nat × (Nat → Bool))
  initial : Nat
  current : Nat

/-- Modelled from the spec: `new(token_type)` — a machine with a single
non-accepting initial state (spec 4.3). -/
def StateMachine.new (token_type : Nat) : StateMachine :=
  { token_type := token_type, accepting := [false], transitions := [],
    initial := 0, current := 0 }

/-- Modelled from the spec: `add_state(is_accepting) → StateId` (spec 4.3). -/
def StateMachine.add_state (m : StateMachine) (is_accepting : Bool) :
    StateMachine × Nat :=
  ({ m with accepting := m.accepting ++ [is_accepting] }, m.accepting.length)

/-- Modelled from the spec: `add_transition(from, to, predicate)`; the
registration order of transitions is kept (spec 4.3). -/
def StateMachine.add_transition (m : StateMachine) (f t : Nat) (p : Nat → Bool) :
    StateMachine :=
  { m with transitions := m.transitions ++ [(f, t, p)] }

/-- Modelled from the spec: `current_state()` accessor. -/
def StateMachine.get_current_state (m : StateMachine) : Nat := m.current

/-- Modelled from the spec: the first transition out of `cur` whose
predicate accepts the byte, scanning in registration order (spec 4.3). -/
def StateMachine.find_transition :
    List (Nat × Nat × (Nat → Bool)) → Nat → Nat → Option Nat
  | [], _, _ => none
  | (f, t, p) :: rest, cur, e =>
    if f = cur ∧ p e = true then some t else StateMachine.find_transition rest cur e

/-- Modelled from the spec: `process_event(byte) → bool` — if the first
satisfying predicate advances the machine, update `current` and return true;
else return false with `current` unchanged (spec 4.3). -/
def StateMachine.process_event (m : StateMachine) (e : Nat) : StateMachine × Bool :=
  match StateMachine.find_transition m.transitions m.current e with
  | some t => ({ m with current := t }, true)
  | none => (m, false)

/-- Modelled from the spec: `is_accepting()` of the current state. -/
def StateMachine.is_in_accepting_state (m : StateMachine) : Bool :=
  m.accepting.getD m.current false

/-- Modelled from the spec: `token_type()` accessor. -/
def StateMachine.get_token_type (m : StateMachine) : Nat := m.token_type

/-- Modelled from the spec: `reset()` restores `current = initial` (spec 4.3). -/
def StateMachine.reset (m : StateMachine) : StateMachine :=
  { m with current := m.initial }

end Lexer

namespace Lexer.Kaubo

/-- Numeric values of enum `Lexer::Kaubo::TokenType`
(src/lexer/src/Lexer/Kaubo/TokenType.h lines 7-41); the enum is
`uint8_t`-backed, so a token type is its numeric value. -/
def TokenType.Utf8Error : Nat := 0

def TokenType.Var : Nat := 1

def TokenType.IntType : Nat := 2

def TokenType.Plus : Nat := 5

def TokenType.Minus : Nat := 6

def TokenType.Multiply : Nat := 7

def TokenType.Divide : Nat := 8

def TokenType.Integer : Nat := 20

def TokenType.Identifier : Nat := 21

def TokenType.Colon : Nat := 25

def TokenType.Equals : Nat := 26

def TokenType.Semicolon : Nat := 27

def TokenType.LeftParen : Nat := 30

def TokenType.RightParen : Nat := 31

def TokenType.WhiteSpace : Nat := 40

def TokenType.Tab : Nat := 41

def TokenType.NewLine : Nat := 42

def TokenType.InvalidToken : Nat := 255

/-- Embeds `Lexer::Kaubo::Machines::create_var_machine`
(src/lexer/src/Lexer/Kaubo/Machines.h lines 178-194) over the spec-modelled
machine substrate: path s0 -v-> s1 -a-> s2 -r-> s3 with only s3 accepting
(bytes 118, 97, 114). -/
def create_var_machine : StateMachine :=
  let machine := StateMachine.new TokenType.Var
  let s0 := machine.get_current_state
  let (machine, s1) := machine.add_state false
  let (machine, s2) := machine.add_state false
  let (machine, s3) := machine.add_state true
  let machine := machine.add_transition s0 s1 (fun c => c == 118)
  let machine := machine.add_transition s1 s2 (fun c => c == 97)
  let machine := machine.add_transition s2 s3 (fun c => c == 114)
  machine

/-- Embeds `Lexer::Kaubo::Machines::create_identifier_machine`
(src/lexer/src/Lexer/Kaubo/Machines.h lines 215-234): s0 to the accepting
s1 on an identifier-start byte, s1 loops on identifier-part bytes. -/
def create_identifier_machine : StateMachine :=
  let machine := StateMachine.new TokenType.Identifier
  let s0 := machine.get_current_state
  let (machine, s1) := machine.add_state true
  let machine := machine.add_transition s0 s1 (fun c => Utf8.is_identifier_start c)
  let machine := machine.add_transition s1 s1 (fun c => Utf8.is_identifier_part c)
  machine

end Lexer.Kaubo

namespace Lexer

/-- Embeds struct `StateMachineManager::MachineInfo`
(src/lexer/src/Lexer/StateMachineManager.h lines 25-30). -/
structure MachineInfo where
  machine : StateMachine
  match_length : Nat
  is_active : Bool
  has_accepted : Bool

/-- Embeds the fields of class `StateMachineManager`
(src/lexer/src/Lexer/StateMachineManager.h lines 32-34).  The
`std::unordered_map<MachineId, MachineInfo>` is an association list keyed by
machine id; `active_machines` is the cached vector of active ids. -/
structure StateMachineManager where
  next_machine_id : Nat
  machines : List (Nat × MachineInfo)
  active_machines : List Nat

/-- The default-constructed manager. -/
def StateMachineManager.empty : StateMachineManager :=
  { next_machine_id := 0, machines := [], active_machines := [] }

/-- Lookup by machine id in the association list (`machines.at(id)` /
`unordered_map` access). -/
def lookupInfo : List (Nat × MachineInfo) → Nat → Option MachineInfo
  | [], _ => none
  | (k, v) :: rest, id => if k = id then some v else lookupInfo rest id

/-- In-place update of the entry with the given id. -/
def updateInfo : List (Nat × MachineInfo) → Nat → MachineInfo → List (Nat × MachineInfo)
  | [], _, _ => []
  | (k, v) :: rest, id, v2 =>
    if k = id then (k, v2) :: rest else (k, v) :: updateInfo rest id v2

/-- Embeds `StateMachineManager::add_machine`
(src/lexer/src/Lexer/StateMachineManager.h lines 45-57): allocate the next
id, store the info with zero progress, activate immediately. -/
def StateMachineManager.add_machine (mgr : StateMachineManager) (machine : StateMachine) :
    StateMachineManager × Nat :=
  let id := mgr.next_machine_id
  ({ next_machine_id := id + 1,
     machines := mgr.machines ++
       [(id, { machine := machine, match_length := 0,
               is_active := true, has_accepted := false })],
     active_machines := mgr.active_machines ++ [id] }, id)

/-- The transformation the loop body of `StateMachineManager::process_event`
applies to one active machine (lines 75-88): on success the machine state
advances, `match_length` increments and `has_accepted` latches if the machine
is then accepting; on failure the machine is marked inactive. -/
def step_info (e : Nat) (info : MachineInfo) : MachineInfo :=
  let step := info.machine.process_event e
  if step.2 then
    { machine := step.1, match_length := info.match_length + 1,
      is_active := info.is_active,
      has_accepted := info.has_accepted || step.1.is_in_accepting_state }
  else { info with is_active := false }

/-- The loop of `StateMachineManager::process_event` over the cached active
ids (src/lexer/src/Lexer/StateMachineManager.h lines 64-93), accumulating
the updated map, the new active vector and the `any_active` flag.  The
`none` lookup branch mirrors the `machines.at` precondition (ids in the
cache are always present) and leaves everything unchanged. -/
def process_loop (e : Nat) : List Nat → List (Nat × MachineInfo) → List Nat → Bool →
    List (Nat × MachineInfo) × List Nat × Bool
  | [], ms, na, aa => (ms, na, aa)
  | id :: rest, ms, na, aa =>
    match lookupInfo ms id with
    | none => process_loop e rest ms na aa
    | some info =>
      if info.is_active = false then process_loop e rest ms na aa
      else if (info.machine.process_event e).2 then
        process_loop e rest (updateInfo ms id (step_info e info)) (na ++ [id]) true
      else
        process_loop e rest (updateInfo ms id (step_info e info)) na aa

/-- Embeds `StateMachineManager::process_event` (lines 64-93). -/
def StateMachineManager.process_event (mgr : StateMachineManager) (e : Nat) :
    StateMachineManager × Bool :=
  let r := process_loop e mgr.active_machines mgr.machines [] false
  ({ mgr with machines := r.1, active_machines := r.2.1 }, r.2.2)

/-- One step of the selection loop of `StateMachineManager::select_best_match`
(src/lexer/src/Lexer/StateMachineManager.h lines 106-124): skip machines
that never accepted; prefer a strictly longer match; on equal length prefer
a strictly smaller token type. -/
def select_step (acc : Option Nat × Nat × Nat) (p : Nat × MachineInfo) :
    Option Nat × Nat × Nat :=
  if p.2.has_accepted = false then acc
  else if p.2.match_length > acc.2.1 then
    (some p.1, p.2.match_length, p.2.machine.get_token_type)
  else if p.2.match_length = acc.2.1 ∧ p.2.machine.get_token_type < acc.2.2 then
    (some p.1, acc.2.1, p.2.machine.get_token_type)
  else acc

/-- Embeds `StateMachineManager::select_best_match` (lines 99-130): the best
id starts as the sentinel (`none` models `MachineId(-1)`), `max_length` 0,
`max_priority` 255 (`numeric_limits<uint8_t>::max()`).  Returns the winning
machine (`none` models the empty `weak_ptr`) and the match length. -/
def StateMachineManager.select_best_match (mgr : StateMachineManager) :
    Option StateMachine × Nat :=
  let r := mgr.machines.foldl select_step (none, 0, 255)
  match r.1 with
  | none => (none, r.2.1)
  | some id => ((lookupInfo mgr.machines id).map (fun info => info.machine), r.2.1)

/-- The per-machine body of `StateMachineManager::reset` (lines 137-141):
reset the machine, clear the progress, re-activate. -/
def reset_info (info : MachineInfo) : MachineInfo :=
  { machine := info.machine.reset, match_length := 0,
    is_active := true, has_accepted := false }

/-- Embeds `StateMachineManager::reset` (lines 135-144): every machine is
reset, progress is cleared, everything is re-activated. -/
def StateMachineManager.reset (mgr : StateMachineManager) : StateMachineManager :=
  { mgr with
    machines := mgr.machines.map (fun p => (p.1, reset_info p.2)),
    active_machines := mgr.machines.map (fun p => p.1) }

/-- Embeds `StateMachineManager::has_active_machines` (lines 149-151). -/
def StateMachineManager.has_active_machines (mgr : StateMachineManager) : Bool :=
  !mgr.active_machines.isEmpty

end Lexer

namespace Lexer.Kaubo

/-- The manager with the Kaubo `var` keyword machine (id 0, token type
`Var = 1`) and the identifier machine (id 1, token type `Identifier = 21`)
registered, then reset. -/
def var_ident_manager : StateMachineManager :=
  ((StateMachineManager.empty.add_machine
      create_var_machine).1.add_machine create_identifier_machine).1.reset

/-- The manager above after processing the bytes of "var" (118, 97, 114). -/
def var_ident_after_var : StateMachineManager :=
  ((((var_ident_manager.process_event 118).1.process_event 97).1.process_event 114).1)

/-- C9: keyword beats identifier on an equal-length match.  With the Kaubo
var machine (token type `Var = 1`) and the identifier machine (token type
`Identifier = 21`) registered in a freshly reset manager, after the bytes
'v' 'a' 'r' both machines have accepted with match_length 3, and
`select_best_match` returns the keyword machine with length 3 because
`Var < Identifier` numerically. -/
theorem C9_keyword_beats_identifier :
    (lookupInfo var_ident_after_var.machines 0).map
        (fun i => (i.has_accepted, i.match_length)) = some (true, 3) ∧
    (lookupInfo var_ident_after_var.machines 1).map
        (fun i => (i.has_accepted, i.match_length)) = some (true, 3) ∧
    var_ident_after_var.select_best_match.1.map StateMachine.get_token_type =
      some TokenType.Var ∧
    var_ident_after_var.select_best_match.2 = 3 ∧
    TokenType.Var < TokenType.Identifier :=
  ⟨rfl, rfl, rfl, rfl, by norm_num [TokenType.Var, TokenType.Identifier]⟩

end Lexer.Kaubo

namespace Lexer

/-- Invariant of the selection fold of `select_best_match`: after scanning
prefix `P` the accumulator either is still the sentinel (and nothing in `P`
has accepted), or holds an entry of `P` realizing the maximal match length,
with the minimal token type among the accepted entries of that length. -/
def select_inv (P : List (Nat × MachineInfo)) (acc : Option Nat × Nat × Nat) : Prop :=
  (acc.1 = none → acc.2.1 = 0 ∧ acc.2.2 = 255 ∧
    ∀ p ∈ P, p.2.has_accepted = false) ∧
  (∀ id, acc.1 = some id → ∃ info, (id, info) ∈ P ∧ info.has_accepted = true ∧
    info.match_length = acc.2.1 ∧ info.machine.get_token_type = acc.2.2 ∧
    (∀ r ∈ P, r.2.has_accepted = true → r.2.match_length ≤ acc.2.1) ∧
    (∀ r ∈ P, r.2.has_accepted = true → r.2.match_length = acc.2.1 →
      acc.2.2 ≤ r.2.machine.get_token_type))

theorem select_step_inv (P : List (Nat × MachineInfo)) (x : Nat × MachineInfo)
    (acc : Option Nat × Nat × Nat)
    (hx : x.2.has_accepted = true → 1 ≤ x.2.match_length)
    (h : select_inv P acc) : select_inv (P ++ [x]) (select_step acc x) := by
  obtain ⟨best, maxLen, maxPrio⟩ := acc
  unfold select_inv at h
  dsimp only at h
  obtain ⟨h1, h2⟩ := h
  by_cases hacc : x.2.has_accepted = false
  · have hstep : select_step (best, maxLen, maxPrio) x = (best, maxLen, maxPrio) := by
      simp [select_step, hacc]
    rw [hstep]
    unfold select_inv
    dsimp only
    refine ⟨?_, ?_⟩
    · intro hn
      obtain ⟨e1, e2, e3⟩ := h1 hn
      refine ⟨e1, e2, ?_⟩
      intro p hp
      rcases List.mem_append.mp hp with hp | hp
      · exact e3 p hp
      · rw [List.mem_singleton.mp hp]
        exact hacc
    · intro id hid
      obtain ⟨info, hmem, ha, hml, htt, hmax, hmin⟩ := h2 id hid
      refine ⟨info, List.mem_append_left _ hmem, ha, hml, htt, ?_, ?_⟩
      · intro r hr hra
        rcases List.mem_append.mp hr with hr | hr
        · exact hmax r hr hra
        · rw [List.mem_singleton.mp hr] at hra
          rw [hacc] at hra
          cases hra
      · intro r hr hra hrl
        rcases List.mem_append.mp hr with hr | hr
        · exact hmin r hr hra hrl
        · rw [List.mem_singleton.mp hr] at hra
          rw [hacc] at hra
          cases hra
  · have hacc2 : x.2.has_accepted = true := by
      cases hb : x.2.has_accepted
      · exact absurd hb hacc
      · rfl
    have hx1 : 1 ≤ x.2.match_length := hx hacc2
    by_cases hgt : x.2.match_length > maxLen
    · have hstep : select_step (best, maxLen, maxPrio) x =
          (some x.1, x.2.match_length, x.2.machine.get_token_type) := by
        unfold select_step
        dsimp only
        rw [if_neg hacc, if_pos hgt]
      rw [hstep]
      unfold select_inv
      dsimp only
      refine ⟨?_, ?_⟩
      · intro hn
        cases hn
      · intro id hid
        have hid2 : id = x.1 := (Option.some.inj hid).symm
        refine ⟨x.2, ?_, hacc2, rfl, rfl, ?_, ?_⟩
        · rw [hid2]
          exact List.mem_append_right _ (List.mem_singleton.mpr rfl)
        · intro r hr hra
          rcases List.mem_append.mp hr with hr | hr
          · rcases hbest : best with _ | id0
            · obtain ⟨_, _, e3⟩ := h1 hbest
              rw [e3 r hr] at hra
              cases hra
            · obtain ⟨info0, _, _, _, _, hmax0, _⟩ := h2 id0 hbest
              have := hmax0 r hr hra
              omega
          · rw [List.mem_singleton.mp hr]
        · intro r hr hra hrl
          rcases List.mem_append.mp hr with hr | hr
          · rcases hbest : best with _ | id0
            · obtain ⟨_, _, e3⟩ := h1 hbest
              rw [e3 r hr] at hra
              cases hra
            · obtain ⟨info0, _, _, _, _, hmax0, _⟩ := h2 id0 hbest
              have := hmax0 r hr hra
              omega
          · rw [List.mem_singleton.mp hr]
    · by_cases heq : x.2.match_length = maxLen ∧ x.2.machine.get_token_type < maxPrio
      · have hstep : select_step (best, maxLen, maxPrio) x =
            (some x.1, maxLen, x.2.machine.get_token_type) := by
          unfold select_step
          dsimp only
          rw [if_neg hacc, if_neg hgt, if_pos heq]
        rw [hstep]
        rcases hbest : best with _ | id0
        · obtain ⟨e1, _, _⟩ := h1 hbest
          exfalso
          omega
        obtain ⟨info0, hmem0, ha0, hml0, htt0, hmax0, hmin0⟩ := h2 id0 hbest
        unfold select_inv
        dsimp only
        refine ⟨?_, ?_⟩
        · intro hn
          cases hn
        · intro id hid
          have hid2 : id = x.1 := (Option.some.inj hid).symm
          refine ⟨x.2, ?_, hacc2, heq.1, rfl, ?_, ?_⟩
          · rw [hid2]
            exact List.mem_append_right _ (List.mem_singleton.mpr rfl)
          · intro r hr hra
            rcases List.mem_append.mp hr with hr | hr
            · exact hmax0 r hr hra
            · rw [List.mem_singleton.mp hr]
              omega
          · intro r hr hra hrl
            rcases List.mem_append.mp hr with hr | hr
            · have := hmin0 r hr hra hrl
              omega
            · rw [List.mem_singleton.mp hr]
      · have hstep : select_step (best, maxLen, maxPrio) x = (best, maxLen, maxPrio) := by
          unfold select_step
          dsimp only
          rw [if_neg hacc, if_neg hgt, if_neg heq]
        rw [hstep]
        unfold select_inv
        dsimp only
        refine ⟨?_, ?_⟩
        · intro hn
          obtain ⟨e1, _, _⟩ := h1 hn
          exfalso
          omega
        · intro id hid
          obtain ⟨info, hmem, ha, hml, htt, hmax, hmin⟩ := h2 id hid
          refine ⟨info, List.mem_append_left _ hmem, ha, hml, htt, ?_, ?_⟩
          · intro r hr hra
            rcases List.mem_append.mp hr with hr | hr
            · exact hmax r hr hra
            · rw [List.mem_singleton.mp hr]
              omega
          · intro r hr hra hrl
            rcases List.mem_append.mp hr with hr | hr
            · exact hmin r hr hra hrl
            · have hrx := List.mem_singleton.mp hr
              rw [hrx] at hrl
              rw [hrx]
              omega

theorem select_foldl_inv (l : List (Nat × MachineInfo))
    (hlen : ∀ p ∈ l, p.2.has_accepted = true → 1 ≤ p.2.match_length) :
    ∀ P acc, select_inv P acc → select_inv (P ++ l) (l.foldl select_step acc) := by
  induction l with
  | nil =>
    intro P acc h
    simpa using h
  | cons x rest ih =>
    intro P acc h
    have hx := hlen x (List.mem_cons_self x rest)
    have hrest : ∀ p ∈ rest, p.2.has_accepted = true → 1 ≤ p.2.match_length :=
      fun p hp => hlen p (List.mem_cons_of_mem _ hp)
    have h3 := ih hrest (P ++ [x]) (select_step acc x) (select_step_inv P x acc hx h)
    rw [List.foldl_cons]
    rw [List.append_assoc] at h3
    simpa using h3

theorem lookupInfo_eq_of_mem :
    ∀ (l : List (Nat × MachineInfo)), (l.map Prod.fst).Nodup →
      ∀ id info, (id, info) ∈ l → lookupInfo l id = some info := by
  intro l
  induction l with
  | nil =>
    intro _ id info h
    cases h
  | cons x rest ih =>
    obtain ⟨k, v⟩ := x
    intro hnd id info hmem
    rw [List.map_cons, List.nodup_cons] at hnd
    rcases List.mem_cons.mp hmem with h | h
    · obtain ⟨e1, e2⟩ := Prod.mk.injEq .. |>.mp h.symm
      unfold lookupInfo
      rw [if_pos e1]
      rw [e2]
    · unfold lookupInfo
      have hne : k ≠ id := by
        intro he
        apply hnd.1
        rw [he]
        exact List.mem_map.mpr ⟨(id, info), h, rfl⟩
      rw [if_neg hne]
      exact ih hnd.2 id info h

end Lexer

namespace Lexer

/-- The selection contract of `select_best_match`: if no machine has
accepted, the winner is empty with match length 0; otherwise the winner is
an accepted machine of maximal match length whose token type is minimal
(numerically) among the accepted machines of that length. -/
def select_best_match_spec (mgr : StateMachineManager) : Prop :=
  ((∀ p ∈ mgr.machines, p.2.has_accepted = false) →
    mgr.select_best_match = (none, 0)) ∧
  (∀ p ∈ mgr.machines, p.2.has_accepted = true →
    ∃ q ∈ mgr.machines, q.2.has_accepted = true ∧
      mgr.select_best_match = (some q.2.machine, q.2.match_length) ∧
      (∀ r ∈ mgr.machines, r.2.has_accepted = true →
        r.2.match_length ≤ q.2.match_length) ∧
      (∀ r ∈ mgr.machines, r.2.has_accepted = true →
        r.2.match_length = q.2.match_length →
        q.2.machine.get_token_type ≤ r.2.machine.get_token_type))

/-- C2: among the machines with `has_accepted = true`, `select_best_match`
returns the machine with the greatest `match_length`; when two accepted
machines have equal `match_length`, the one whose `token_type` has the lower
numeric value wins; when no registered machine has accepted, the winner is
empty with match length 0.  Hypotheses: machine ids are distinct (the
manager allocates them consecutively), and an accepted machine has consumed
at least one byte (`has_accepted` only latches inside a successful
`process_event`). -/
theorem C2_select_best_match (mgr : StateMachineManager)
    (hnd : (mgr.machines.map Prod.fst).Nodup)
    (hlen : ∀ p ∈ mgr.machines, p.2.has_accepted = true → 1 ≤ p.2.match_length) :
    select_best_match_spec mgr := by
  have base : select_inv [] (none, 0, 255) := by
    unfold select_inv
    refine ⟨fun _ => ⟨rfl, rfl, ?_⟩, ?_⟩
    · intro p hp
      cases hp
    · intro id hid
      cases hid
  have hinv := select_foldl_inv mgr.machines hlen [] (none, 0, 255) base
  rw [List.nil_append] at hinv
  unfold select_inv at hinv
  obtain ⟨h1, h2⟩ := hinv
  unfold select_best_match_spec
  constructor
  · intro hnone
    rcases hfold : (mgr.machines.foldl select_step (none, 0, 255)).1 with _ | id
    · obtain ⟨e1, _, _⟩ := h1 hfold
      unfold StateMachineManager.select_best_match
      dsimp only
      rw [hfold]
      dsimp only
      rw [e1]
    · obtain ⟨info, hmem, hax, _⟩ := h2 id hfold
      rw [hnone (id, info) hmem] at hax
      cases hax
  · intro p hp hpacc
    rcases hfold : (mgr.machines.foldl select_step (none, 0, 255)).1 with _ | id
    · obtain ⟨_, _, e3⟩ := h1 hfold
      rw [e3 p hp] at hpacc
      cases hpacc
    · obtain ⟨info, hmem, ha, hml, htt, hmax, hmin⟩ := h2 id hfold
      refine ⟨(id, info), hmem, ha, ?_, ?_, ?_⟩
      · unfold StateMachineManager.select_best_match
        dsimp only
        rw [hfold]
        dsimp only
        rw [lookupInfo_eq_of_mem mgr.machines hnd id info hmem]
        rw [Option.map_some']
        rw [← hml]
      · intro r hr hra
        dsimp only
        rw [hml]
        exact hmax r hr hra
      · intro r hr hra hrl
        dsimp only
        rw [htt]
        dsimp only at hrl
        rw [hml] at hrl
        exact hmin r hr hra hrl

/-- Witness for C2 at the concrete Kaubo manager after the bytes of "var":
both registered machines have accepted with match length 3. -/
theorem C2_select_best_match_witness : select_best_match_spec Kaubo.var_ident_after_var :=
  C2_select_best_match Kaubo.var_ident_after_var (by decide) (by decide)

end Lexer

namespace Lexer

theorem mem_of_lookupInfo :
    ∀ (l : List (Nat × MachineInfo)) (id : Nat) (info : MachineInfo),
      lookupInfo l id = some info → (id, info) ∈ l := by
  intro l
  induction l with
  | nil =>
    intro id info h
    cases h
  | cons x rest ih =>
    obtain ⟨k, v⟩ := x
    intro id info h
    unfold lookupInfo at h
    by_cases hk : k = id
    · rw [if_pos hk] at h
      obtain rfl := Option.some.inj h
      rw [← hk]
      exact List.mem_cons_self _ _
    · rw [if_neg hk] at h
      exact List.mem_cons_of_mem _ (ih id info h)

theorem lookupInfo_isSome_of_mem_keys :
    ∀ (l : List (Nat × MachineInfo)) (id : Nat),
      id ∈ l.map Prod.fst → (lookupInfo l id).isSome = true := by
  intro l
  induction l with
  | nil =>
    intro id h
    cases h
  | cons x rest ih =>
    obtain ⟨k, v⟩ := x
    intro id h
    unfold lookupInfo
    by_cases hk : k = id
    · rw [if_pos hk]
      rfl
    · rw [if_neg hk]
      rw [List.map_cons, List.mem_cons] at h
      rcases h with h | h
      · exact absurd h.symm hk
      · exact ih id h

theorem lookupInfo_updateInfo_self :
    ∀ (l : List (Nat × MachineInfo)) (id : Nat) (info v2 : MachineInfo),
      lookupInfo l id = some info →
      lookupInfo (updateInfo l id v2) id = some v2 := by
  intro l
  induction l with
  | nil =>
    intro id info v2 h
    cases h
  | cons x rest ih =>
    obtain ⟨k, v⟩ := x
    intro id info v2 h
    by_cases hk : k = id
    · simp only [updateInfo, lookupInfo, if_pos hk]
    · simp only [lookupInfo, if_neg hk] at h
      simp only [updateInfo, lookupInfo, if_neg hk]
      exact ih id info v2 h

theorem lookupInfo_updateInfo_other :
    ∀ (l : List (Nat × MachineInfo)) (id : Nat) (v2 : MachineInfo) (id2 : Nat),
      id2 ≠ id → lookupInfo (updateInfo l id v2) id2 = lookupInfo l id2 := by
  intro l
  induction l with
  | nil =>
    intro id v2 id2 _
    rfl
  | cons x rest ih =>
    obtain ⟨k, v⟩ := x
    intro id v2 id2 hne
    by_cases hk : k = id
    · have hk2 : ¬ k = id2 := by
        rw [hk]
        exact fun h => hne h.symm
      simp only [updateInfo, lookupInfo, if_pos hk, if_neg hk2]
    · by_cases hk2 : k = id2
      · simp only [updateInfo, lookupInfo, if_neg hk, if_pos hk2]
      · simp only [updateInfo, lookupInfo, if_neg hk, if_neg hk2]
        exact ih id v2 id2 hne

theorem updateInfo_map_fst :
    ∀ (l : List (Nat × MachineInfo)) (id : Nat) (v2 : MachineInfo),
      (updateInfo l id v2).map Prod.fst = l.map Prod.fst := by
  intro l
  induction l with
  | nil =>
    intro id v2
    rfl
  | cons x rest ih =>
    obtain ⟨k, v⟩ := x
    intro id v2
    by_cases hk : k = id
    · simp only [updateInfo, if_pos hk, List.map_cons]
    · simp only [updateInfo, if_neg hk, List.map_cons]
      rw [ih id v2]

theorem filter_congr_mem (l : List Nat) (p q : Nat → Bool)
    (h : ∀ a ∈ l, p a = q a) : l.filter p = l.filter q := by
  induction l with
  | nil => rfl
  | cons x rest ih =>
    have hx := h x (List.mem_cons_self _ _)
    have hrest := ih fun a ha => h a (List.mem_cons_of_mem _ ha)
    rw [List.filter_cons, List.filter_cons, hx, hrest]

theorem any_congr_mem (l : List Nat) (p q : Nat → Bool)
    (h : ∀ a ∈ l, p a = q a) : l.any p = l.any q := by
  induction l with
  | nil => rfl
  | cons x rest ih =>
    have hx := h x (List.mem_cons_self _ _)
    have hrest := ih fun a ha => h a (List.mem_cons_of_mem _ ha)
    rw [List.any_cons, List.any_cons, hx, hrest]

theorem lookupInfo_map_fn (g : MachineInfo → MachineInfo) :
    ∀ (l : List (Nat × MachineInfo)) (id : Nat),
      lookupInfo (l.map (fun p => (p.1, g p.2))) id = (lookupInfo l id).map g := by
  intro l
  induction l with
  | nil =>
    intro id
    rfl
  | cons x rest ih =>
    obtain ⟨k, v⟩ := x
    intro id
    rw [List.map_cons]
    unfold lookupInfo
    by_cases hk : k = id
    · rw [if_pos hk, if_pos hk]
      rfl
    · rw [if_neg hk, if_neg hk]
      exact ih id

theorem map_fst_map_fn (g : MachineInfo → MachineInfo) :
    ∀ (l : List (Nat × MachineInfo)),
      (l.map (fun p => (p.1, g p.2))).map Prod.fst = l.map Prod.fst := by
  intro l
  induction l with
  | nil => rfl
  | cons x rest ih =>
    rw [List.map_cons, List.map_cons, List.map_cons, ih]

/-- Does the machine with the given id (in the pre-event map) consume the
event: it is active and its `process_event` succeeds. -/
def consumes (e : Nat) (ms : List (Nat × MachineInfo)) (id : Nat) : Bool :=
  match lookupInfo ms id with
  | some info => info.is_active && (info.machine.process_event e).2
  | none => false

end Lexer

namespace Lexer

theorem process_loop_spec (e : Nat) :
    ∀ (ids : List Nat) (ms : List (Nat × MachineInfo)) (na : List Nat) (aa : Bool),
      ids.Nodup →
      (∀ id, id ∉ ids →
        lookupInfo (process_loop e ids ms na aa).1 id = lookupInfo ms id) ∧
      (∀ id, id ∈ ids →
        lookupInfo (process_loop e ids ms na aa).1 id =
          (lookupInfo ms id).map (fun info =>
            if info.is_active = true then step_info e info else info)) ∧
      (process_loop e ids ms na aa).2.1 = na ++ ids.filter (consumes e ms) ∧
      (process_loop e ids ms na aa).2.2 = (aa || ids.any (consumes e ms)) := by
  intro ids
  induction ids with
  | nil =>
    intro ms na aa _
    refine ⟨fun id _ => rfl, fun id h => absurd h (List.not_mem_nil id), ?_, ?_⟩
    · simp [process_loop]
    · simp [process_loop]
  | cons id0 rest ih =>
    intro ms na aa hnd
    rw [List.nodup_cons] at hnd
    obtain ⟨hnotin, hnd2⟩ := hnd
    rcases hl : lookupInfo ms id0 with _ | info
    · have heval : process_loop e (id0 :: rest) ms na aa = process_loop e rest ms na aa := by
        simp only [process_loop, hl]
      obtain ⟨ih1, ih2, ih3, ih4⟩ := ih ms na aa hnd2
      have hcons : consumes e ms id0 = false := by
        simp [consumes, hl]
      refine ⟨?_, ?_, ?_, ?_⟩
      · intro id hid
        rw [heval]
        exact ih1 id (fun h => hid (List.mem_cons_of_mem _ h))
      · intro id hid
        rw [heval]
        rcases List.mem_cons.mp hid with hid | hid
        · rw [hid, ih1 id0 hnotin, hl]
          rfl
        · exact ih2 id hid
      · rw [heval, ih3]
        simp [List.filter_cons, hcons]
      · rw [heval, ih4]
        simp [List.any_cons, hcons]
    · by_cases hact : info.is_active = true
      · by_cases hproc : (info.machine.process_event e).2 = true
        · have heval : process_loop e (id0 :: rest) ms na aa =
              process_loop e rest (updateInfo ms id0 (step_info e info)) (na ++ [id0]) true := by
            simp only [process_loop, hl]
            rw [if_neg (by rw [hact]; simp), if_pos hproc]
          obtain ⟨ih1, ih2, ih3, ih4⟩ :=
            ih (updateInfo ms id0 (step_info e info)) (na ++ [id0]) true hnd2
          have hself : lookupInfo (updateInfo ms id0 (step_info e info)) id0 =
              some (step_info e info) :=
            lookupInfo_updateInfo_self ms id0 info _ hl
          have hother : ∀ id, id ≠ id0 →
              lookupInfo (updateInfo ms id0 (step_info e info)) id = lookupInfo ms id :=
            fun id h => lookupInfo_updateInfo_other ms id0 _ id h
          have hcons : consumes e ms id0 = true := by
            simp [consumes, hl, hact, hproc]
          have hrest_eq : ∀ a ∈ rest,
              consumes e (updateInfo ms id0 (step_info e info)) a = consumes e ms a := by
            intro a ha
            have hne : a ≠ id0 := fun h => hnotin (h ▸ ha)
            unfold consumes
            rw [hother a hne]
          refine ⟨?_, ?_, ?_, ?_⟩
          · intro id hid
            have h1 : id ∉ rest := fun h => hid (List.mem_cons_of_mem _ h)
            have h2 : id ≠ id0 := fun h => hid (by rw [h]; exact List.mem_cons_self _ _)
            rw [heval, ih1 id h1, hother id h2]
          · intro id hid
            rcases List.mem_cons.mp hid with hid | hid
            · rw [hid, heval, ih1 id0 hnotin, hself, hl]
              simp [hact]
            · have hne : id ≠ id0 := fun h => hnotin (h ▸ hid)
              rw [heval, ih2 id hid, hother id hne]
          · rw [heval, ih3, filter_congr_mem rest _ _ hrest_eq]
            simp [List.filter_cons, hcons, List.append_assoc]
          · rw [heval, ih4, any_congr_mem rest _ _ hrest_eq]
            simp [List.any_cons, hcons]
        · have hprocf : (info.machine.process_event e).2 = false := by
            cases hb : (info.machine.process_event e).2
            · rfl
            · exact absurd hb hproc
          have heval : process_loop e (id0 :: rest) ms na aa =
              process_loop e rest (updateInfo ms id0 (step_info e info)) na aa := by
            simp only [process_loop, hl]
            rw [if_neg (by rw [hact]; simp), if_neg hproc]
          obtain ⟨ih1, ih2, ih3, ih4⟩ :=
            ih (updateInfo ms id0 (step_info e info)) na aa hnd2
          have hself : lookupInfo (updateInfo ms id0 (step_info e info)) id0 =
              some (step_info e info) :=
            lookupInfo_updateInfo_self ms id0 info _ hl
          have hother : ∀ id, id ≠ id0 →
              lookupInfo (updateInfo ms id0 (step_info e info)) id = lookupInfo ms id :=
            fun id h => lookupInfo_updateInfo_other ms id0 _ id h
          have hcons : consumes e ms id0 = false := by
            simp [consumes, hl, hprocf]
          have hrest_eq : ∀ a ∈ rest,
              consumes e (updateInfo ms id0 (step_info e info)) a = consumes e ms a := by
            intro a ha
            have hne : a ≠ id0 := fun h => hnotin (h ▸ ha)
            unfold consumes
            rw [hother a hne]
          refine ⟨?_, ?_, ?_, ?_⟩
          · intro id hid
            have h1 : id ∉ rest := fun h => hid (List.mem_cons_of_mem _ h)
            have h2 : id ≠ id0 := fun h => hid (by rw [h]; exact List.mem_cons_self _ _)
            rw [heval, ih1 id h1, hother id h2]
          · intro id hid
            rcases List.mem_cons.mp hid with hid | hid
            · rw [hid, heval, ih1 id0 hnotin, hself, hl]
              simp [hact]
            · have hne : id ≠ id0 := fun h => hnotin (h ▸ hid)
              rw [heval, ih2 id hid, hother id hne]
          · rw [heval, ih3, filter_congr_mem rest _ _ hrest_eq]
            simp [List.filter_cons, hcons]
          · rw [heval, ih4, any_congr_mem rest _ _ hrest_eq]
            simp [List.any_cons, hcons]
      · have hactf : info.is_active = false := by
          cases hb : info.is_active
          · rfl
          · exact absurd hb hact
        have heval : process_loop e (id0 :: rest) ms na aa = process_loop e rest ms na aa := by
          simp only [process_loop, hl]
          rw [if_pos hactf]
        obtain ⟨ih1, ih2, ih3, ih4⟩ := ih ms na aa hnd2
        have hcons : consumes e ms id0 = false := by
          simp [consumes, hl, hactf]
        refine ⟨?_, ?_, ?_, ?_⟩
        · intro id hid
          rw [heval]
          exact ih1 id (fun h => hid (List.mem_cons_of_mem _ h))
        · intro id hid
          rcases List.mem_cons.mp hid with hid | hid
          · rw [hid, heval, ih1 id0 hnotin, hl]
            simp [hactf]
          · rw [heval]
            exact ih2 id hid
        · rw [heval, ih3]
          simp [List.filter_cons, hcons]
        · rw [heval, ih4]
          simp [List.any_cons, hcons]

end Lexer

namespace Lexer

theorem process_loop_map_fst (e : Nat) :
    ∀ (ids : List Nat) (ms : List (Nat × MachineInfo)) (na : List Nat) (aa : Bool),
      (process_loop e ids ms na aa).1.map Prod.fst = ms.map Prod.fst := by
  intro ids
  induction ids with
  | nil =>
    intro ms na aa
    rfl
  | cons id0 rest ih =>
    intro ms na aa
    rcases hl : lookupInfo ms id0 with _ | info
    · simp only [process_loop, hl]
      exact ih ms na aa
    · by_cases hact : info.is_active = false
      · simp only [process_loop, hl]
        rw [if_pos hact]
        exact ih ms na aa
      · by_cases hproc : (info.machine.process_event e).2 = true
        · simp only [process_loop, hl]
          rw [if_neg hact, if_pos hproc, ih _ _ _, updateInfo_map_fst]
        · simp only [process_loop, hl]
          rw [if_neg hact, if_neg hproc, ih _ _ _, updateInfo_map_fst]

/-- Representation invariant of the manager: distinct machine ids, a
duplicate-free active cache holding exactly the ids of the machines whose
`is_active` flag is set, and every cached id present in the map. -/
def manager_wf (mgr : StateMachineManager) : Prop :=
  (mgr.machines.map Prod.fst).Nodup ∧
  mgr.active_machines.Nodup ∧
  (∀ p ∈ mgr.machines, p.2.is_active = true ↔ p.1 ∈ mgr.active_machines) ∧
  (∀ id ∈ mgr.active_machines, (lookupInfo mgr.machines id).isSome = true)

/-- The step contract of `process_event` and `reset` claimed by C5: the
byte reaches exactly the active machines; an active machine either consumes
(its `match_length` grows by one and `has_accepted` latches with the
accepting test of the new state) or becomes inactive with everything else
unchanged; an inactive machine is untouched; the call returns true iff some
machine remained active; the invariant is preserved; and `reset`
re-activates every machine with `match_length` 0 and `has_accepted` false. -/
def manager_step_spec (mgr : StateMachineManager) (e : Nat) : Prop :=
  (∀ id info, lookupInfo mgr.machines id = some info → info.is_active = false →
    lookupInfo (mgr.process_event e).1.machines id = some info) ∧
  (∀ id info, lookupInfo mgr.machines id = some info → info.is_active = true →
    lookupInfo (mgr.process_event e).1.machines id = some (step_info e info) ∧
    ((info.machine.process_event e).2 = true →
      (step_info e info).match_length = info.match_length + 1 ∧
      (step_info e info).is_active = true ∧
      (step_info e info).has_accepted =
        (info.has_accepted || (info.machine.process_event e).1.is_in_accepting_state)) ∧
    ((info.machine.process_event e).2 = false →
      (step_info e info).is_active = false ∧
      (step_info e info).machine = info.machine ∧
      (step_info e info).match_length = info.match_length ∧
      (step_info e info).has_accepted = info.has_accepted)) ∧
  ((mgr.process_event e).2 = true ↔
    ∃ id info, lookupInfo (mgr.process_event e).1.machines id = some info ∧
      info.is_active = true) ∧
  manager_wf (mgr.process_event e).1 ∧
  (∀ id info, lookupInfo mgr.machines id = some info →
    lookupInfo mgr.reset.machines id =
      some { machine := info.machine.reset, match_length := 0,
             is_active := true, has_accepted := false }) ∧
  manager_wf mgr.reset

/-- C5: the contract above holds for every well-formed manager state and
every byte event. -/
theorem C5_process_event_reset (mgr : StateMachineManager) (e : Nat)
    (hwf : manager_wf mgr) : manager_step_spec mgr e := by
  obtain ⟨hnd, hand, hiff, hsome⟩ := hwf
  obtain ⟨hout, hin, hna, haa⟩ :=
    process_loop_spec e mgr.active_machines mgr.machines [] false hand
  have hm_eq : (mgr.process_event e).1.machines =
      (process_loop e mgr.active_machines mgr.machines [] false).1 := rfl
  have ha_eq : (mgr.process_event e).1.active_machines =
      (process_loop e mgr.active_machines mgr.machines [] false).2.1 := rfl
  have hr_eq : (mgr.process_event e).2 =
      (process_loop e mgr.active_machines mgr.machines [] false).2.2 := rfl
  have hrm : mgr.reset.machines = mgr.machines.map (fun p => (p.1, reset_info p.2)) := rfl
  have hra : mgr.reset.active_machines = mgr.machines.map Prod.fst := rfl
  unfold manager_step_spec
  refine ⟨?_, ?_, ?_, ?_, ?_, ?_⟩
  · intro id info hl hact
    have hmem := mem_of_lookupInfo _ id info hl
    have hnotin : id ∉ mgr.active_machines := by
      intro hin2
      have h2 := (hiff (id, info) hmem).mpr hin2
      rw [hact] at h2
      cases h2
    rw [hm_eq, hout id hnotin, hl]
  · intro id info hl hact
    have hmem := mem_of_lookupInfo _ id info hl
    have hidm : id ∈ mgr.active_machines := (hiff (id, info) hmem).mp hact
    refine ⟨?_, ?_, ?_⟩
    · rw [hm_eq, hin id hidm, hl]
      simp [hact]
    · intro hproc
      refine ⟨?_, ?_, ?_⟩ <;> simp [step_info, hproc, hact]
    · intro hprocf
      refine ⟨?_, ?_, ?_, ?_⟩ <;> simp [step_info, hprocf]
  · rw [hr_eq, haa]
    simp only [Bool.false_or]
    constructor
    · intro hany
      obtain ⟨id, hidm, hc⟩ := List.any_eq_true.mp hany
      unfold consumes at hc
      rcases hl : lookupInfo mgr.machines id with _ | info
      · rw [hl] at hc
        cases hc
      · rw [hl] at hc
        rw [Bool.and_eq_true] at hc
        refine ⟨id, step_info e info, ?_, ?_⟩
        · rw [hm_eq, hin id hidm, hl]
          simp [hc.1]
        · simp [step_info, hc.2, hc.1]
    · rintro ⟨id, info2, hl2, hact2⟩
      by_cases hidm : id ∈ mgr.active_machines
      · have hs := hsome id hidm
        rcases hl : lookupInfo mgr.machines id with _ | info
        · rw [hl] at hs
          cases hs
        · have hact : info.is_active = true :=
            (hiff (id, info) (mem_of_lookupInfo _ _ _ hl)).mpr hidm
          rw [hm_eq, hin id hidm, hl, Option.map_some', if_pos hact] at hl2
          have hl3 := Option.some.inj hl2
          by_cases hproc : (info.machine.process_event e).2 = true
          · refine List.any_eq_true.mpr ⟨id, hidm, ?_⟩
            unfold consumes
            rw [hl]
            simp [hact, hproc]
          · exfalso
            have hprocf : (info.machine.process_event e).2 = false := by
              cases hb : (info.machine.process_event e).2
              · rfl
              · exact absurd hb hproc
            have hia : (step_info e info).is_active = false := by
              simp [step_info, hprocf]
            rw [hl3, hact2] at hia
            cases hia
      · rw [hm_eq, hout id hidm] at hl2
        have h2 := (hiff (id, info2) (mem_of_lookupInfo _ _ _ hl2)).mp hact2
        exact absurd h2 hidm
  · refine ⟨?_, ?_, ?_, ?_⟩
    · rw [hm_eq, process_loop_map_fst]
      exact hnd
    · rw [ha_eq, hna]
      simp only [List.nil_append]
      exact hand.filter _
    · intro p hp
      obtain ⟨id, info2⟩ := p
      dsimp only
      have hnd2 : ((mgr.process_event e).1.machines.map Prod.fst).Nodup := by
        rw [hm_eq, process_loop_map_fst]
        exact hnd
      have hl2 : lookupInfo (mgr.process_event e).1.machines id = some info2 :=
        lookupInfo_eq_of_mem _ hnd2 id info2 hp
      rw [ha_eq, hna, List.nil_append, List.mem_filter]
      by_cases hidm : id ∈ mgr.active_machines
      · have hs := hsome id hidm
        rcases hl : lookupInfo mgr.machines id with _ | info
        · rw [hl] at hs
          cases hs
        · have hact : info.is_active = true :=
            (hiff (id, info) (mem_of_lookupInfo _ _ _ hl)).mpr hidm
          rw [hm_eq, hin id hidm, hl, Option.map_some', if_pos hact] at hl2
          have hl3 := Option.some.inj hl2
          by_cases hproc : (info.machine.process_event e).2 = true
          · have hia : info2.is_active = true := by
              rw [← hl3]
              simp [step_info, hproc, hact]
            constructor
            · intro _
              refine ⟨hidm, ?_⟩
              unfold consumes
              rw [hl]
              simp [hact, hproc]
            · intro _
              exact hia
          · have hprocf : (info.machine.process_event e).2 = false := by
              cases hb : (info.machine.process_event e).2
              · rfl
              · exact absurd hb hproc
            have hia : info2.is_active = false := by
              rw [← hl3]
              simp [step_info, hprocf]
            constructor
            · intro h2
              rw [hia] at h2
              cases h2
            · rintro ⟨_, hc⟩
              unfold consumes at hc
              rw [hl] at hc
              rw [Bool.and_eq_true] at hc
              rw [hprocf] at hc
              cases hc.2
      · rw [hm_eq, hout id hidm] at hl2
        constructor
        · intro h2
          have h3 := (hiff (id, info2) (mem_of_lookupInfo _ _ _ hl2)).mp h2
          exact absurd h3 hidm
        · rintro ⟨hmem2, _⟩
          exact absurd hmem2 hidm
    · intro id hid2
      rw [ha_eq, hna, List.nil_append, List.mem_filter] at hid2
      obtain ⟨hidm, _⟩ := hid2
      have hs := hsome id hidm
      rcases hl : lookupInfo mgr.machines id with _ | info
      · rw [hl] at hs
        cases hs
      · rw [hm_eq, hin id hidm, hl]
        rfl
  · intro id info hl
    rw [hrm, lookupInfo_map_fn reset_info mgr.machines id, hl]
    rfl
  · refine ⟨?_, ?_, ?_, ?_⟩
    · rw [hrm, map_fst_map_fn reset_info]
      exact hnd
    · rw [hra]
      exact hnd
    · intro p hp
      rw [hrm] at hp
      obtain ⟨q, hq, hpe⟩ := List.mem_map.mp hp
      constructor
      · intro _
        rw [hra, ← hpe]
        exact List.mem_map.mpr ⟨q, hq, rfl⟩
      · intro _
        rw [← hpe]
        rfl
    · intro id hid2
      rw [hra] at hid2
      rw [hrm, lookupInfo_map_fn reset_info]
      have hs := lookupInfo_isSome_of_mem_keys mgr.machines id hid2
      rcases hl : lookupInfo mgr.machines id with _ | info
      · rw [hl] at hs
        cases hs
      · rfl

/-- Witness for C5 at the concrete Kaubo manager and the byte 'v'. -/
theorem C5_process_event_reset_witness : manager_step_spec Kaubo.var_ident_manager 118 :=
  C5_process_event_reset Kaubo.var_ident_manager 118 (by unfold manager_wf; decide)

end Lexer

namespace Parser

/-- Embeds enum `Lexer::TokenType` (src/lexer/src/Lexer/Type.h lines 8-80),
the token alphabet of the main parser.  The parser compares token types only
for equality, so the numeric enum values are not needed here. -/
inductive TokenType where
  | Utf8Error
  | Comment
  | Var
  | If
  | Else
  | Elif
  | While
  | For
  | Return
  | In
  | Yield
  | True
  | False
  | Null
  | Break
  | Continue
  | Struct
  | Interface
  | Import
  | As
  | From
  | Pass
  | And
  | Or
  | Not
  | Async
  | Await
  | Literal_Integer
  | Literal_String
  | Identifier
  | DoubleEqual
  | ExclamationEqual
  | GreaterThanEqual
  | LessThanEqual
  | GreaterThan
  | LessThan
  | Plus
  | Minus
  | Asterisk
  | Slash
  | Colon
  | Equal
  | Comma
  | Semicolon
  | LeftParenthesis
  | RightParenthesis
  | LeftCurlyBrace
  | RightCurlyBrace
  | LeftSquareBracket
  | RightSquareBracket
  | Dot
  | Pipe
  | Whitespace
  | Tab
  | NewLine
  | InvalidToken
deriving DecidableEq

/-- Embeds enum `Parser::Error` (src/lexer/src/Parser/Error.h lines 6-20). -/
inductive Error where
  | UnexpectedToken
  | UnexpectedEndOfInput
  | InvalidNumberFormat
  | MissingRightParen
  | DivisionByZero
  | ExpectedLeftBraceAfterArrow
  | ExpectedCommaOrRightParen
  | MissingRightBrace
  | ExpectedIdentifierAfterDot
  | ExpectedPipe
  | ExpectedIdentifierInLambdaParams
  | ExpectedCommaOrPipeInLambda
  | ExpectedLeftBraceInLambdaBody
deriving DecidableEq

/-- A token as the parser sees it: kind and lexeme value.  The source token
also carries line/column coordinates, which the parser never reads. -/
structure Token where
  type : TokenType
  value : String
deriving DecidableEq

/-- The parser's token-stream state: `current_token` and the not-yet-read
remainder of the lexer's stream (the parser pulls one token per
`consume`). -/
structure PState where
  current : Option Token
  rest : List Token
deriving DecidableEq

/-- The constructor `Parser(lexer)` primes with one `consume`
(src/lexer/src/Parser/Parser.h lines 25-28). -/
def PState.of_tokens (ts : List Token) : PState :=
  { current := ts.head?, rest := ts.tail }

/-- Embeds `Parser::consume` (src/lexer/src/Parser/Parser.h line 41):
`current_token = m_lexer->next_token()`. -/
def consume (s : PState) : PState :=
  { current := s.rest.head?, rest := s.rest.tail }

/-- Embeds `Parser::check` (src/lexer/src/Parser/Parser.h lines 44-46). -/
def check (ty : TokenType) (s : PState) : Bool :=
  match s.current with
  | some t => decide (t.type = ty)
  | none => false

/-- Embeds `Parser::match` (src/lexer/src/Parser/Parser.h lines 49-55):
consume on a type match, reporting whether it matched. -/
def match_tok (ty : TokenType) (s : PState) : Bool × PState :=
  if check ty s then (true, consume s) else (false, s)

/-- Embeds `Parser::expect` (src/lexer/src/Parser/Parser.h lines 58-64). -/
def expect (ty : TokenType) (s : PState) : Except Error Unit × PState :=
  if check ty s then (.ok (), consume s) else (.error .UnexpectedToken, s)

/-- Embeds `Parser::Utils::get_precedence`
(src/lexer/src/Parser/Utils.h lines 5-52). -/
def get_precedence (op : TokenType) : Int :=
  match op with
  | .Equal => 50
  | .Or => 60
  | .Pipe => 70
  | .And => 80
  | .DoubleEqual => 100
  | .ExclamationEqual => 100
  | .GreaterThan => 100
  | .LessThan => 100
  | .GreaterThanEqual => 100
  | .LessThanEqual => 100
  | .Plus => 200
  | .Minus => 200
  | .Asterisk => 300
  | .Slash => 300
  | .Dot => 400
  | .Not => 450
  | _ => 0

/-- Embeds `Parser::Utils::get_associativity`
(src/lexer/src/Parser/Utils.h lines 54-56): `true` for every operator.  In
`parse_expression` a `true` associativity recurses with the operator's own
precedence, which makes the operator left-associative (the header comment
at src/lexer/src/Parser/Kaubo/Parser.h line 204 reads "true for left"). -/
def get_associativity (_ : TokenType) : Bool :=
  true

/-- Modelled from the spec: `std::stoll`, which `Parser::parse_int` applies
to an integer lexeme (the C++ standard library is outside the sources).
On the digit-only lexemes the integer machine produces, it parses the
maximal leading digit run in base 10 and throws (here: `none`, caught as
`InvalidNumberFormat`) when no digit leads or the value exceeds the
int64 maximum. -/
def stoll (s : String) : Option Int :=
  let ds := s.data.takeWhile (fun c => c.isDigit)
  if ds.isEmpty then none
  else
    let v : Nat := ds.foldl (fun acc c => acc * 10 + (c.toNat - 48)) 0
    if v ≤ 9223372036854775807 then some (Int.ofNat v) else none

mutual
/-- Embeds the expression variants of `Parser::Expr`
(src/lexer/src/Parser/Expr.h lines 12-90). -/
inductive Expr where
  | literalInt (value : Int)
  | literalString (value : String)
  | binary (left : Expr) (op : TokenType) (right : Expr)
  | unary (op : TokenType) (operand : Expr)
  | grouping (expression : Expr)
  | varRef (name : String)
  | functionCall (function_expr : Expr) (arguments : List Expr)
  | assign (name : String) (value : Expr)
  | lambda (params : List String) (body : Stmt)
  | memberAccess (object : Expr) (member : String)

/-- Embeds the statement variants of `Parser::Stmt`
(src/lexer/src/Parser/Stmt.h). -/
inductive Stmt where
  | exprStmt (expression : Expr)
  | empty
  | block (statements : List Stmt)
  | varDecl (name : String) (initializer : Expr)
end

/-- Outcome of a parse function: a value with the successor state, a parse
error (`Result::Err` in the source), a crash (`Result::unwrap` on an `Err`,
or dereferencing an empty `current_token` — both undefined behaviour /
assertion failures in C++), or fuel exhaustion (an artifact of the
fuel-indexed embedding, never reached with enough fuel). -/
inductive POut (α : Type) where
  | ok (a : α) (s : PState)
  | err (e : Error)
  | crash
  | out_of_fuel

/-- Error-propagating sequencing of parse outcomes (the source's
`if (r.is_err()) return Err(r.unwrap_err());` pattern). -/
def POut.bind {α β : Type} (x : POut α) (f : α → PState → POut β) : POut β :=
  match x with
  | .ok a s => f a s
  | .err e => .err e
  | .crash => .crash
  | .out_of_fuel => .out_of_fuel

/-- Embeds `Parser::parse_int` (src/lexer/src/Parser/Parser.cpp lines
192-205): `std::stoll` on the current lexeme, consume on success. -/
def parse_int (s : PState) : POut Expr :=
  match s.current with
  | none => .crash
  | some tok =>
    match stoll tok.value with
    | none => .err .InvalidNumberFormat
    | some value => .ok (.literalInt value) (consume s)

/-- Embeds `Parser::parse_identifier_expression`
(src/lexer/src/Parser/Parser.cpp lines 207-217). -/
def parse_identifier_expression (s : PState) : POut Expr :=
  match s.current with
  | none => .crash
  | some tok => .ok (.varRef tok.value) (consume s)

/-- Embeds `Parser::parse_string` (src/lexer/src/Parser/Parser.cpp lines
219-229): strips the two quote bytes with `substr(1, size - 2)`. -/
def parse_string (s : PState) : POut Expr :=
  match s.current with
  | none => .crash
  | some tok => .ok (.literalString ((tok.value.drop 1).dropRight 1)) (consume s)

/-- The parameter-collecting loop of `Parser::parse_lambda`
(src/lexer/src/Parser/Parser.cpp lines 242-260). -/
def parse_lambda_params : Nat → List String → PState → POut (List String)
  | 0, _, _ => .out_of_fuel
  | fuel + 1, acc, s =>
    if check .Identifier s then
      match s.current with
      | none => .crash
      | some tok =>
        let s1 := consume s
        let r := match_tok .Comma s1
        if r.1 then parse_lambda_params fuel (acc ++ [tok.value]) r.2
        else if check .Pipe r.2 then .ok (acc ++ [tok.value]) r.2
        else .err .ExpectedCommaOrPipeInLambda
    else .err .ExpectedIdentifierInLambdaParams

end Parser

namespace Parser

mutual

/-- The statement-collecting loop of `Parser::parse_module`
(src/lexer/src/Parser/Parser.cpp lines 14-36): skip a leading semicolon,
otherwise parse a statement and consume an optional trailing semicolon,
until the stream ends. -/
def parse_module_loop : Nat → List Stmt → PState → POut (List Stmt)
  | 0, _, _ => .out_of_fuel
  | fuel + 1, acc, s =>
    match s.current with
    | none => .ok acc s
    | some _ =>
      let r := match_tok .Semicolon s
      if r.1 then parse_module_loop fuel acc r.2
      else
        (parse_statement fuel s).bind fun stmt s1 =>
          parse_module_loop fuel (acc ++ [stmt]) (match_tok .Semicolon s1).2

/-- Embeds `Parser::parse_statement` (src/lexer/src/Parser/Parser.cpp lines
38-77): block, var declaration, empty statement, or expression statement. -/
def parse_statement : Nat → PState → POut Stmt
  | 0, _ => .out_of_fuel
  | fuel + 1, s =>
    if check .LeftCurlyBrace s then parse_block fuel s
    else if check .Var s then parse_var_declaration fuel s
    else if check .Semicolon s then .ok .empty (consume s)
    else (parse_expression fuel 0 s).bind fun e s1 => .ok (.exprStmt e) s1

/-- Embeds `Parser::parse_block` (src/lexer/src/Parser/Parser.cpp lines
79-118): expect a left brace (mapping any error to `UnexpectedToken`), then
the statement loop. -/
def parse_block : Nat → PState → POut Stmt
  | 0, _ => .out_of_fuel
  | fuel + 1, s =>
    let r := expect .LeftCurlyBrace s
    match r.1 with
    | .error _ => .err .UnexpectedToken
    | .ok _ => parse_block_loop fuel [] r.2

/-- The statement-collecting loop of `Parser::parse_block`
(src/lexer/src/Parser/Parser.cpp lines 90-117), ending with the expected
right brace. -/
def parse_block_loop : Nat → List Stmt → PState → POut Stmt
  | 0, _, _ => .out_of_fuel
  | fuel + 1, acc, s =>
    if s.current.isSome && !check .RightCurlyBrace s then
      let r := match_tok .Semicolon s
      if r.1 then parse_block_loop fuel acc r.2
      else
        (parse_statement fuel s).bind fun stmt s1 =>
          parse_block_loop fuel (acc ++ [stmt]) (match_tok .Semicolon s1).2
    else
      let r := expect .RightCurlyBrace s
      match r.1 with
      | .error _ => .err .UnexpectedToken
      | .ok _ => .ok (.block acc) r.2

/-- Embeds `Parser::parse_expression(precedence)`
(src/lexer/src/Parser/Parser.cpp lines 120-165): parse a unary left
operand, then the binary-operator loop. -/
def parse_expression : Nat → Int → PState → POut Expr
  | 0, _, _ => .out_of_fuel
  | fuel + 1, precedence, s =>
    (parse_unary fuel s).bind fun left s1 =>
      parse_expression_loop fuel precedence left s1

/-- The binary-operator loop of `Parser::parse_expression`
(src/lexer/src/Parser/Parser.cpp lines 130-163): while the next operator
binds tighter than `precedence`, consume it, parse the right operand with
`op_precedence` (associativity is always `true` = left), and fold into a
`Binary` node. -/
def parse_expression_loop : Nat → Int → Expr → PState → POut Expr
  | 0, _, _, _ => .out_of_fuel
  | fuel + 1, precedence, left, s =>
    match s.current with
    | none => .ok left s
    | some tok =>
      let op := tok.type
      let op_precedence := get_precedence op
      if op_precedence ≤ precedence then .ok left s
      else
        let next_precedence :=
          if get_associativity op then op_precedence else op_precedence - 1
        (parse_expression fuel next_precedence (consume s)).bind fun right s2 =>
          parse_expression_loop fuel precedence (.binary left op right) s2

/-- Embeds `Parser::parse_unary` (src/lexer/src/Parser/Parser.cpp lines
167-190): prefix `+`/`-` recurse right-associatively, otherwise primary.
Dereferencing `current_token` is guarded by `check`, so the `none` arm is
unreachable (kept as `.crash` = UB). -/
def parse_unary : Nat → PState → POut Expr
  | 0, _ => .out_of_fuel
  | fuel + 1, s =>
    if check .Plus s || check .Minus s then
      match s.current with
      | none => .crash
      | some tok =>
        (parse_unary fuel (consume s)).bind fun operand s1 =>
          .ok (.unary tok.type operand) s1
    else parse_primary fuel s

/-- Embeds `Parser::parse_lambda` (src/lexer/src/Parser/Parser.cpp lines
232-286): `|params| { body }`. -/
def parse_lambda : Nat → PState → POut Expr
  | 0, _ => .out_of_fuel
  | fuel + 1, s =>
    let r := match_tok .Pipe s
    if !r.1 then .err .ExpectedPipe
    else
      (if check .Pipe r.2 then .ok [] r.2
       else parse_lambda_params fuel [] r.2).bind fun params s1 =>
        let r2 := match_tok .Pipe s1
        if !r2.1 then .err .ExpectedPipe
        else if !check .LeftCurlyBrace r2.2 then .err .ExpectedLeftBraceInLambdaBody
        else
          (parse_block fuel r2.2).bind fun body s2 =>
            .ok (.lambda params body) s2

/-- Embeds `Parser::parse_primary_base` (src/lexer/src/Parser/Parser.cpp
lines 288-308): dispatch on the current token type. -/
def parse_primary_base : Nat → PState → POut Expr
  | 0, _ => .out_of_fuel
  | fuel + 1, s =>
    match s.current with
    | none => .err .UnexpectedEndOfInput
    | some tok =>
      match tok.type with
      | .Literal_Integer => parse_int s
      | .Literal_String => parse_string s
      | .LeftParenthesis => parse_parenthesized fuel s
      | .Identifier => parse_identifier_expression s
      | .Pipe => parse_lambda fuel s
      | _ => .err .UnexpectedToken

/-- Embeds `Parser::parse_primary` (src/lexer/src/Parser/Parser.cpp lines
310-320): a base expression followed by postfix operators. -/
def parse_primary : Nat → PState → POut Expr
  | 0, _ => .out_of_fuel
  | fuel + 1, s =>
    (parse_primary_base fuel s).bind fun base s1 => parsePostfix fuel base s1

/-- Embeds `Parser::parse_parenthesized` (src/lexer/src/Parser/Parser.cpp
lines 322-343). -/
def parse_parenthesized : Nat → PState → POut Expr
  | 0, _ => .out_of_fuel
  | fuel + 1, s =>
    (parse_expression fuel 0 (consume s)).bind fun e s2 =>
      let r := match_tok .RightParenthesis s2
      if !r.1 then .err .MissingRightParen
      else .ok (.grouping e) r.2

/-- Embeds `Parser::parse_function_call(function_expr)`
(src/lexer/src/Parser/Parser.cpp lines 345-384): consume `(`, parse the
comma-separated argument list unless `)` follows immediately, expect `)`. -/
def parse_function_call : Nat → Expr → PState → POut Expr
  | 0, _, _ => .out_of_fuel
  | fuel + 1, function_expr, s =>
    (if check .RightParenthesis (consume s) then .ok [] (consume s)
     else parse_call_args fuel [] (consume s)).bind fun args s2 =>
      let r := expect .RightParenthesis s2
      match r.1 with
      | .error _ => .err .MissingRightParen
      | .ok _ => .ok (.functionCall function_expr args) r.2

/-- The argument loop of `Parser::parse_function_call`
(src/lexer/src/Parser/Parser.cpp lines 354-367). -/
def parse_call_args : Nat → List Expr → PState → POut (List Expr)
  | 0, _, _ => .out_of_fuel
  | fuel + 1, acc, s =>
    (parse_expression fuel 0 s).bind fun arg s1 =>
      let r := match_tok .Comma s1
      if r.1 then parse_call_args fuel (acc ++ [arg]) r.2
      else .ok (acc ++ [arg]) r.2

/-- Embeds `Parser::parse_postfix(expr)` (src/lexer/src/Parser/Parser.cpp
lines 386-416).  In the function-call arm the source runs
`expr = parse_function_call(expr).unwrap();` without an `is_err` check:
`Result::unwrap` on an `Err` is an assertion failure, so an error from the
call becomes `.crash` instead of propagating. -/
def parsePostfix : Nat → Expr → PState → POut Expr
  | 0, _, _ => .out_of_fuel
  | fuel + 1, expr, s =>
    if check .Dot s then
      let s1 := consume s
      if !check .Identifier s1 then .err .ExpectedIdentifierAfterDot
      else
        match s1.current with
        | none => .crash
        | some tok => parsePostfix fuel (.memberAccess expr tok.value) (consume s1)
    else if check .LeftParenthesis s then
      match parse_function_call fuel expr s with
      | .ok e s1 => parsePostfix fuel e s1
      | .err _ => .crash
      | .crash => .crash
      | .out_of_fuel => .out_of_fuel
    else .ok expr s

/-- Embeds `Parser::parse_var_declaration`
(src/lexer/src/Parser/Parser.cpp lines 418-453):
`var IDENT = expression ;`. -/
def parse_var_declaration : Nat → PState → POut Stmt
  | 0, _ => .out_of_fuel
  | fuel + 1, s =>
    let s1 := consume s
    if !check .Identifier s1 then .err .UnexpectedToken
    else
      match s1.current with
      | none => .crash
      | some tok =>
        let r := expect .Equal (consume s1)
        match r.1 with
        | .error _ => .err .UnexpectedToken
        | .ok _ =>
          (parse_expression fuel 0 r.2).bind fun e s3 =>
            let r2 := expect .Semicolon s3
            match r2.1 with
            | .error e2 => .err e2
            | .ok _ => .ok (.varDecl tok.value e) r2.2

end

/-- Embeds `Parser::parse_module` (src/lexer/src/Parser/Parser.cpp lines
14-36): the module's statement list is collected by `parse_module_loop`
starting from empty. -/
def parse_module (fuel : Nat) (s : PState) : POut (List Stmt) :=
  parse_module_loop fuel [] s

/-- Embeds `Parser::parse` (src/lexer/src/Parser/Parser.cpp lines 10-12). -/
def parse (fuel : Nat) (s : PState) : POut (List Stmt) :=
  parse_module fuel s

end Parser

namespace Parser.Kaubo

/-- Embeds enum `Lexer::Kaubo::TokenType`
(src/lexer/src/Lexer/Kaubo/TokenType.h lines 7-41), extended by the
variants the Kaubo parser references that are missing from that committed
header.  Modelled from the spec: the comparison and brace/comma variants
(`EqualEqual`, `NotEqual`, `Greater`, `Less`, `GreaterEqual`, `LessEqual`,
`LeftBrace`, `RightBrace`, `Comma`) used by
src/lexer/src/Parser/Kaubo/Parser.cpp and listed in the spec's Kaubo
grammar are not declared in any header under src/, so their presence is
taken from those uses; the parser compares token types only for equality,
so their numeric enum values are irrelevant here. -/
inductive TokenType where
  | Utf8Error
  | Var
  | IntType
  | Plus
  | Minus
  | Multiply
  | Divide
  | Integer
  | Identifier
  | Colon
  | Equals
  | Semicolon
  | LeftParen
  | RightParen
  | WhiteSpace
  | Tab
  | NewLine
  | InvalidToken
  | EqualEqual
  | NotEqual
  | Greater
  | Less
  | GreaterEqual
  | LessEqual
  | LeftBrace
  | RightBrace
  | Comma
deriving DecidableEq

/-- Embeds enum `Parser::Kaubo::ParseError`
(src/lexer/src/Parser/Kaubo/Parser.h). -/
inductive ParseError where
  | UnexpectedToken
  | UnexpectedEndOfInput
  | InvalidNumberFormat
  | MissingRightParen
  | DivisionByZero
deriving DecidableEq

/-- A Kaubo token as its parser sees it: kind and lexeme value. -/
structure Token where
  type : TokenType
  value : String
deriving DecidableEq

/-- The Kaubo parser's token-stream state (`current_token` plus the unread
remainder of the lexer stream). -/
structure PState where
  current : Option Token
  rest : List Token
deriving DecidableEq

/-- The Kaubo `Parser(lexer)` constructor primes with one `consume`. -/
def PState.of_tokens (ts : List Token) : PState :=
  { current := ts.head?, rest := ts.tail }

/-- Embeds `Parser::Kaubo::Parser::consume`
(src/lexer/src/Parser/Kaubo/Parser.cpp lines 13-15). -/
def consume (s : PState) : PState :=
  { current := s.rest.head?, rest := s.rest.tail }

/-- Embeds `Parser::Kaubo::Parser::check`
(src/lexer/src/Parser/Kaubo/Parser.cpp lines 17-19). -/
def check (ty : TokenType) (s : PState) : Bool :=
  match s.current with
  | some t => decide (t.type = ty)
  | none => false

/-- Embeds `Parser::Kaubo::Parser::match`
(src/lexer/src/Parser/Kaubo/Parser.cpp lines 21-27). -/
def match_tok (ty : TokenType) (s : PState) : Bool × PState :=
  if check ty s then (true, consume s) else (false, s)

/-- Embeds `Parser::Kaubo::Parser::expect`
(src/lexer/src/Parser/Kaubo/Parser.cpp lines 29-35). -/
def expect (ty : TokenType) (s : PState) : Except ParseError Unit × PState :=
  if check ty s then (.ok (), consume s) else (.error .UnexpectedToken, s)

/-- Embeds `Parser::Kaubo::Parser::get_precedence`
(src/lexer/src/Parser/Kaubo/Parser.cpp lines 37-62). -/
def get_precedence (op : TokenType) : Int :=
  match op with
  | .Equals => 5
  | .EqualEqual => 15
  | .NotEqual => 15
  | .Greater => 15
  | .Less => 15
  | .GreaterEqual => 15
  | .LessEqual => 15
  | .Plus => 10
  | .Minus => 10
  | .Multiply => 20
  | .Divide => 20
  | _ => 0

/-- Embeds `Parser::Kaubo::Parser::get_associativity`
(src/lexer/src/Parser/Kaubo/Parser.cpp lines 64-67): every operator is
left-associative. -/
def get_associativity (_ : TokenType) : Bool :=
  true

/-- Embeds the expression variants of `Parser::Kaubo::Expr`
(src/lexer/src/Parser/Kaubo/Parser.h lines 19-61). -/
inductive Expr where
  | intValue (n : Int)
  | binary (left : Expr) (op : TokenType) (right : Expr)
  | unary (op : TokenType) (operand : Expr)
  | grouping (expression : Expr)
  | varDecl (name : String) (initializer : Expr)
  | varRef (name : String)
  | functionCall (function_name : String) (arguments : List Expr)
  | assign (name : String) (value : Expr)

/-- Outcome of a Kaubo parse function (mirrors `Parser.POut` for the Kaubo
draft's error type). -/
inductive KOut (α : Type) where
  | ok (a : α) (s : PState)
  | err (e : ParseError)
  | crash
  | out_of_fuel

/-- Error-propagating sequencing of Kaubo parse outcomes. -/
def KOut.bind {α β : Type} (x : KOut α) (f : α → PState → KOut β) : KOut β :=
  match x with
  | .ok a s => f a s
  | .err e => .err e
  | .crash => .crash
  | .out_of_fuel => .out_of_fuel

mutual

/-- Embeds `Parser::Kaubo::Parser::parse_expression(precedence)`
(src/lexer/src/Parser/Kaubo/Parser.cpp lines 176-221). -/
def parse_expression : Nat → Int → PState → KOut Expr
  | 0, _, _ => .out_of_fuel
  | fuel + 1, precedence, s =>
    (parse_unary fuel s).bind fun left s1 =>
      parse_expression_loop fuel precedence left s1

/-- The binary-operator loop of `Parser::Kaubo::Parser::parse_expression`
(src/lexer/src/Parser/Kaubo/Parser.cpp lines 186-218). -/
def parse_expression_loop : Nat → Int → Expr → PState → KOut Expr
  | 0, _, _, _ => .out_of_fuel
  | fuel + 1, precedence, left, s =>
    match s.current with
    | none => .ok left s
    | some tok =>
      let op := tok.type
      let op_precedence := get_precedence op
      if op_precedence ≤ precedence then .ok left s
      else
        let next_precedence :=
          if get_associativity op then op_precedence else op_precedence - 1
        (parse_expression fuel next_precedence (consume s)).bind fun right s2 =>
          parse_expression_loop fuel precedence (.binary left op right) s2

/-- Embeds `Parser::Kaubo::Parser::parse_unary`
(src/lexer/src/Parser/Kaubo/Parser.cpp lines 223-243). -/
def parse_unary : Nat → PState → KOut Expr
  | 0, _ => .out_of_fuel
  | fuel + 1, s =>
    if check .Plus s || check .Minus s then
      match s.current with
      | none => .crash
      | some tok =>
        (parse_unary fuel (consume s)).bind fun operand s1 =>
          .ok (.unary tok.type operand) s1
    else parse_primary fuel s

/-- Embeds `Parser::Kaubo::Parser::parse_primary`
(src/lexer/src/Parser/Kaubo/Parser.cpp lines 245-299): integer literal
(via `std::stoll`), parenthesized group, identifier (variable reference or
function call), otherwise `UnexpectedToken`. -/
def parse_primary : Nat → PState → KOut Expr
  | 0, _ => .out_of_fuel
  | fuel + 1, s =>
    match s.current with
    | none => .err .UnexpectedEndOfInput
    | some tok =>
      match tok.type with
      | .Integer =>
        match stoll tok.value with
        | none => .err .InvalidNumberFormat
        | some value => .ok (.intValue value) (consume s)
      | .LeftParen =>
        (parse_expression fuel 0 (consume s)).bind fun e s2 =>
          let r := expect .RightParen s2
          match r.1 with
          | .error _ => .err .MissingRightParen
          | .ok _ => .ok (.grouping e) r.2
      | .Identifier =>
        let s1 := consume s
        if check .LeftParen s1 then parse_function_call fuel tok.value s1
        else .ok (.varRef tok.value) s1
      | _ => .err .UnexpectedToken

/-- Embeds `Parser::Kaubo::Parser::parse_function_call(function_name)`
(src/lexer/src/Parser/Kaubo/Parser.cpp lines 301-340). -/
def parse_function_call : Nat → String → PState → KOut Expr
  | 0, _, _ => .out_of_fuel
  | fuel + 1, function_name, s =>
    (if check .RightParen (consume s) then .ok [] (consume s)
     else parse_call_args fuel [] (consume s)).bind fun args s2 =>
      let r := expect .RightParen s2
      match r.1 with
      | .error _ => .err .MissingRightParen
      | .ok _ => .ok (.functionCall function_name args) r.2

/-- The argument loop of `Parser::Kaubo::Parser::parse_function_call`
(src/lexer/src/Parser/Kaubo/Parser.cpp lines 309-326). -/
def parse_call_args : Nat → List Expr → PState → KOut (List Expr)
  | 0, _, _ => .out_of_fuel
  | fuel + 1, acc, s =>
    (parse_expression fuel 0 s).bind fun arg s1 =>
      let r := match_tok .Comma s1
      if r.1 then parse_call_args fuel (acc ++ [arg]) r.2
      else .ok (acc ++ [arg]) r.2

end

end Parser.Kaubo

namespace Parser

/-- C1 counterexample: on the token stream of `a = b = 1` the parser does
not produce the right-associated tree `Binary(=, a, Binary(=, b, 1))` that
the claim prescribes (it produces the left-associated
`Binary(=, Binary(=, a, b), 1)` instead, because `get_associativity`
returns `true` = left for `=` as for every operator). -/
theorem C1_counterexample :
    parse_expression 32 0 (PState.of_tokens
      [⟨.Identifier, "a"⟩, ⟨.Equal, "="⟩, ⟨.Identifier, "b"⟩,
       ⟨.Equal, "="⟩, ⟨.Literal_Integer, "1"⟩]) ≠
    .ok (.binary (.varRef "a") .Equal
          (.binary (.varRef "b") .Equal (.literalInt 1)))
      ⟨none, []⟩ := by
  intro h
  have e : parse_expression 32 0 (PState.of_tokens
      [⟨.Identifier, "a"⟩, ⟨.Equal, "="⟩, ⟨.Identifier, "b"⟩,
       ⟨.Equal, "="⟩, ⟨.Literal_Integer, "1"⟩]) =
      .ok (.binary (.binary (.varRef "a") .Equal (.varRef "b"))
            .Equal (.literalInt 1)) ⟨none, []⟩ := rfl
  rw [e] at h
  simp at h

/-- C1 (amended): assignment is parsed left-associatively — for every
token stream IDENT '=' IDENT '=' INT whose integer lexeme `sv` parses to
`n`, `parse_expression` groups it as `(a = b) = n`, with the inner
assignment of a to b as the LEFT operand of the outer `=` node. -/
theorem C1_assignment_left_assoc (a b sv : String) (n : Int)
    (h : stoll sv = some n) :
    parse_expression 32 0 (PState.of_tokens
      [⟨.Identifier, a⟩, ⟨.Equal, "="⟩, ⟨.Identifier, b⟩,
       ⟨.Equal, "="⟩, ⟨.Literal_Integer, sv⟩]) =
    .ok (.binary (.binary (.varRef a) .Equal (.varRef b))
          .Equal (.literalInt n))
      ⟨none, []⟩ := by
  simp [parse_expression, parse_expression_loop, parse_unary, parse_primary,
    parse_primary_base, parsePostfix, parse_int, parse_identifier_expression,
    PState.of_tokens, consume, check, get_precedence, get_associativity,
    POut.bind, h]

/-- C1 witness: the amended theorem at the concrete input `a = b = 1`. -/
theorem C1_assignment_left_assoc_witness :
    stoll "1" = some 1 ∧
    parse_expression 32 0 (PState.of_tokens
      [⟨.Identifier, "a"⟩, ⟨.Equal, "="⟩, ⟨.Identifier, "b"⟩,
       ⟨.Equal, "="⟩, ⟨.Literal_Integer, "1"⟩]) =
    .ok (.binary (.binary (.varRef "a") .Equal (.varRef "b"))
          .Equal (.literalInt 1))
      ⟨none, []⟩ :=
  ⟨rfl, C1_assignment_left_assoc "a" "b" "1" 1 rfl⟩

/-- C3: multiplicative operators bind tighter than additive ones in both
parser drafts — `1 + 2 * 3` parses as `Binary(+, 1, Binary(*, 2, 3))` and
`1 * 2 + 3` as `Binary(+, Binary(*, 1, 2), 3)`, under the main parser
(`*`/`/` at 300 vs `+`/`-` at 200) and under the Kaubo parser
(`*`/`/` at 20 vs `+`/`-` at 10). -/
theorem C3_mul_binds_tighter_than_add :
    parse_expression 32 0 (PState.of_tokens
      [⟨.Literal_Integer, "1"⟩, ⟨.Plus, "+"⟩, ⟨.Literal_Integer, "2"⟩,
       ⟨.Asterisk, "*"⟩, ⟨.Literal_Integer, "3"⟩]) =
      .ok (.binary (.literalInt 1) .Plus
            (.binary (.literalInt 2) .Asterisk (.literalInt 3)))
        ⟨none, []⟩ ∧
    parse_expression 32 0 (PState.of_tokens
      [⟨.Literal_Integer, "1"⟩, ⟨.Asterisk, "*"⟩, ⟨.Literal_Integer, "2"⟩,
       ⟨.Plus, "+"⟩, ⟨.Literal_Integer, "3"⟩]) =
      .ok (.binary (.binary (.literalInt 1) .Asterisk (.literalInt 2))
            .Plus (.literalInt 3))
        ⟨none, []⟩ ∧
    Kaubo.parse_expression 32 0 (Kaubo.PState.of_tokens
      [⟨.Integer, "1"⟩, ⟨.Plus, "+"⟩, ⟨.Integer, "2"⟩,
       ⟨.Multiply, "*"⟩, ⟨.Integer, "3"⟩]) =
      .ok (.binary (.intValue 1) .Plus
            (.binary (.intValue 2) .Multiply (.intValue 3)))
        ⟨none, []⟩ ∧
    Kaubo.parse_expression 32 0 (Kaubo.PState.of_tokens
      [⟨.Integer, "1"⟩, ⟨.Multiply, "*"⟩, ⟨.Integer, "2"⟩,
       ⟨.Plus, "+"⟩, ⟨.Integer, "3"⟩]) =
      .ok (.binary (.binary (.intValue 1) .Multiply (.intValue 2))
            .Plus (.intValue 3))
        ⟨none, []⟩ :=
  ⟨rfl, rfl, rfl, rfl⟩

/-- C4 counterexample: in the Kaubo parser draft, comparison operators
bind TIGHTER than `+`/`-` (`==` has precedence 15, `+` has 10), so
`a + b == c` does not parse as `Binary(==, Binary(+, a, b), c)` there —
refuting the claim's "must hold in every parser draft". -/
theorem C4_counterexample :
    Kaubo.parse_expression 32 0 (Kaubo.PState.of_tokens
      [⟨.Identifier, "a"⟩, ⟨.Plus, "+"⟩, ⟨.Identifier, "b"⟩,
       ⟨.EqualEqual, "=="⟩, ⟨.Identifier, "c"⟩]) ≠
    .ok (.binary (.binary (.varRef "a") .Plus (.varRef "b"))
          .EqualEqual (.varRef "c"))
      ⟨none, []⟩ := by
  intro h
  have e : Kaubo.parse_expression 32 0 (Kaubo.PState.of_tokens
      [⟨.Identifier, "a"⟩, ⟨.Plus, "+"⟩, ⟨.Identifier, "b"⟩,
       ⟨.EqualEqual, "=="⟩, ⟨.Identifier, "c"⟩]) =
      .ok (.binary (.varRef "a") .Plus
            (.binary (.varRef "b") .EqualEqual (.varRef "c")))
        ⟨none, []⟩ := rfl
  rw [e] at h
  simp at h

/-- C4 (amended): the two precedence tables disagree on `a + b == c` —
the main parser (`+` 200 > `==` 100) yields
`Binary(==, Binary(+, a, b), c)` as the claim says, but the Kaubo parser
(`+` 10 < `==` 15) yields `Binary(+, a, Binary(==, b, c))`, for every
choice of identifier lexemes. -/
theorem C4_comparison_vs_additive (a b c : String) :
    parse_expression 32 0 (PState.of_tokens
      [⟨.Identifier, a⟩, ⟨.Plus, "+"⟩, ⟨.Identifier, b⟩,
       ⟨.DoubleEqual, "=="⟩, ⟨.Identifier, c⟩]) =
      .ok (.binary (.binary (.varRef a) .Plus (.varRef b))
            .DoubleEqual (.varRef c))
        ⟨none, []⟩ ∧
    Kaubo.parse_expression 32 0 (Kaubo.PState.of_tokens
      [⟨.Identifier, a⟩, ⟨.Plus, "+"⟩, ⟨.Identifier, b⟩,
       ⟨.EqualEqual, "=="⟩, ⟨.Identifier, c⟩]) =
      .ok (.binary (.varRef a) .Plus
            (.binary (.varRef b) .EqualEqual (.varRef c)))
        ⟨none, []⟩ :=
  ⟨rfl, rfl⟩

/-- C6: errors inside a postfix function call do NOT propagate as tagged
values — on the token stream of `f(;)` the argument sub-parse fails with
`UnexpectedToken` (first conjunct), but `parse()` crashes (the
`parse_function_call(expr).unwrap()` in parse_postfix asserts on the `Err`)
instead of returning that error (second conjunct). -/
theorem C6_error_in_call_crashes :
    parse_function_call 31 (.varRef "f")
      ⟨some ⟨.LeftParenthesis, "("⟩,
       [⟨.Semicolon, ";"⟩, ⟨.RightParenthesis, ")"⟩]⟩ =
      .err .UnexpectedToken ∧
    parse 32 (PState.of_tokens
      [⟨.Identifier, "f"⟩, ⟨.LeftParenthesis, "("⟩,
       ⟨.Semicolon, ";"⟩, ⟨.RightParenthesis, ")"⟩]) = .crash :=
  ⟨rfl, rfl⟩

end Parser
